import Mathlib

/-!
Verification development for the QMT market-data bridge core.

The definitions below are a shallow embedding, translated from the Python
sources of the repository:

* `core/realtime_service.py` — bar state machine, dedup LRU, publish path;
* `core/pubsub_publisher.py` and `core/metrics.py` — publisher retry and counters;
* `core/schema_guard.py` — outbound payload validation;
* `core/control_plane.py` and `core/registry.py` — subscribe handling and
  the Redis-backed subscription registry;
* `core/history_api.py` — bar_open_ts derivation for history rows.

Python dictionaries are modelled as insertion-ordered association lists over a
small value type; datetimes are modelled at one-second resolution as epoch
seconds together with explicit calendar arithmetic, so that the timestamp
normalization of `_normalize_bar_end_ts` is executable.  Machine integers do
not overflow in any of the modelled code paths, so Int/Rat are used directly.
-/

/-- A Python value as it appears in the bar payload dictionaries.  Numeric
values are modelled as integers: the modelled code paths either treat
numbers opaquely (prices, volumes — the concrete scenarios encode a price
`p` as `round(1000 * p)`) or read them as epoch timestamps, which the model
resolves at one-second granularity. -/
inductive PyVal where
  | none
  | bool (b : Bool)
  | num (q : Int)
  | str (s : String)
deriving DecidableEq, Repr

/-- A Python dict: insertion-ordered association list (keys unique by use). -/
abbrev PyDict := List (String × PyVal)

/-- `d.get(k)`: first binding of `k`, if any. -/
def dget : PyDict → String → Option PyVal
  | [], _ => Option.none
  | (k0, v0) :: rest, k =>
    if k0 = k then Option.some v0 else dget rest k

/-- `d[k] = v`: replace the existing binding in place, else append. -/
def dset (d : PyDict) (k : String) (v : PyVal) : PyDict :=
  match d with
  | [] => [(k, v)]
  | (k0, v0) :: rest =>
    if k0 = k then (k0, v) :: rest else (k0, v0) :: dset rest k v

/-- `d.setdefault(k, v)`: insert only when the key is absent. -/
def dsetdefault (d : PyDict) (k : String) (v : PyVal) : PyDict :=
  match dget d k with
  | Option.none => d ++ [(k, v)]
  | Option.some _ => d

/-- Python truthiness of a value. -/
def truthy : PyVal → Bool
  | PyVal.none => false
  | PyVal.bool b => b
  | PyVal.num q => q ≠ 0
  | PyVal.str s => s ≠ ""

/-- Python truthiness of `d.get(k)` (an absent key reads as `None`). -/
def truthyO : Option PyVal → Bool
  | Option.none => false
  | Option.some v => truthy v

/-! ## Calendar arithmetic (proleptic Gregorian, as Python datetime)

Floor division (`Int.fdiv` / `Int.fmod`) matches Python `//` and `%`.
The day conversions follow the standard civil-from-days algorithm.
-/

/-- Gregorian leap year. -/
def is_leap (y : Int) : Bool :=
  (y.fmod 4 = 0 && y.fmod 100 ≠ 0) || y.fmod 400 = 0

/-- Days in a month (1-based months). -/
def days_in_month (y m : Int) : Int :=
  if m = 2 then (if is_leap y then 29 else 28)
  else if m = 4 ∨ m = 6 ∨ m = 9 ∨ m = 11 then 30
  else 31

/-- Days since 1970-01-01 of a civil date. -/
def days_from_civil (y m d : Int) : Int :=
  let y' : Int := y - (if m ≤ 2 then 1 else 0)
  let era : Int := y'.fdiv 400
  let yoe : Int := y' - era * 400
  let mp : Int := m + (if m > 2 then (-3 : Int) else 9)
  let doy : Int := (153 * mp + 2).fdiv 5 + d - 1
  let doe : Int := yoe * 365 + yoe.fdiv 4 - yoe.fdiv 100 + doy
  era * 146097 + doe - 719468

/-- Civil date of a count of days since 1970-01-01. -/
def civil_from_days (z0 : Int) : Int × Int × Int :=
  let z : Int := z0 + 719468
  let era : Int := z.fdiv 146097
  let doe : Int := z - era * 146097
  let yoe : Int :=
    (doe - doe.fdiv 1460 + doe.fdiv 36524 - doe.fdiv 146096).fdiv 365
  let y0 : Int := yoe + era * 400
  let doy : Int := doe - (365 * yoe + yoe.fdiv 4 - yoe.fdiv 100)
  let mp : Int := (5 * doy + 2).fdiv 153
  let d : Int := doy - (153 * mp + 2).fdiv 5 + 1
  let m : Int := mp + (if mp < 10 then 3 else -9)
  (y0 + (if m ≤ 2 then 1 else 0), m, d)

/-- Zero-padded two-digit rendering (inputs in 0..99 in all uses). -/
def pad2 (n : Int) : String :=
  if n < 10 then "0" ++ toString n else toString n

/-- Zero-padded four-digit rendering (inputs in 1..9999 in all uses). -/
def pad4 (n : Int) : String :=
  if n < 10 then "000" ++ toString n
  else if n < 100 then "00" ++ toString n
  else if n < 1000 then "0" ++ toString n
  else toString n

/-- The date part `YYYY-MM-DD` of an ISO string. -/
def date_part (y m d : Int) : String :=
  pad4 y ++ "-" ++ pad2 m ++ "-" ++ pad2 d

/-- The time part `HH:MM:SS` of an ISO string. -/
def time_part (hh mi ss : Int) : String :=
  pad2 hh ++ ":" ++ pad2 mi ++ ":" ++ pad2 ss

/-- `datetime.isoformat()` of an aware datetime with the `+08:00` zone:
civil fields rendered with the literal `+08:00` suffix. -/
def iso_of_civil (y m d hh mi ss : Int) : String :=
  date_part y m d ++ "T" ++ time_part hh mi ss ++ "+08:00"

/-- Epoch seconds of civil fields read at UTC. -/
def epoch_of_civil (y m d hh mi ss : Int) : Int :=
  days_from_civil y m d * 86400 + hh * 3600 + mi * 60 + ss

/-- `fromtimestamp(e, utc).astimezone(CN_TZ).isoformat()` at one-second
resolution: renders the instant `e` in the fixed `+08:00` zone.  Returns
`none` when the datetime year leaves the Python-supported range 1..9999
(Python raises there, and the caller catches every exception). -/
def cn_iso_of_epoch (e : Int) : Option String :=
  let yUtc : Int := (civil_from_days (e.fdiv 86400)).1
  if yUtc < 1 ∨ 9999 < yUtc then Option.none
  else
    let t : Int := e + 28800
    let days : Int := t.fdiv 86400
    let sod : Int := t.fmod 86400
    match civil_from_days days with
    | (y, m, d) =>
      if y < 1 ∨ 9999 < y then Option.none
      else Option.some
        (iso_of_civil y m d (sod.fdiv 3600) ((sod.fmod 3600).fdiv 60)
          (sod.fmod 60))

/-! ## String parsing for `datetime.strptime` / `datetime.fromisoformat` -/

/-- Numeric value of a digit character. -/
def digit_val (c : Char) : Int := Int.ofNat c.toNat - 48

/-- Value of a digit list (most significant first). -/
def digits_val (l : List Char) : Int :=
  l.foldl (fun a c => a * 10 + digit_val c) 0

/-- Parse exactly two leading digits. -/
def parse2 : List Char → Option (Int × List Char)
  | c1 :: c2 :: rest =>
    if c1.isDigit && c2.isDigit then
      Option.some (digits_val [c1, c2], rest)
    else Option.none
  | _ => Option.none

/-- Parse exactly four leading digits. -/
def parse4 : List Char → Option (Int × List Char)
  | c1 :: c2 :: c3 :: c4 :: rest =>
    if c1.isDigit && c2.isDigit && c3.isDigit && c4.isDigit then
      Option.some (digits_val [c1, c2, c3, c4], rest)
    else Option.none
  | _ => Option.none

/-- Valid civil date in the Python datetime range. -/
def valid_ymd (y m d : Int) : Bool :=
  1 ≤ y && y ≤ 9999 && 1 ≤ m && m ≤ 12 && 1 ≤ d && d ≤ days_in_month y m

/-- Valid time-of-day fields. -/
def valid_hms (hh mi ss : Int) : Bool :=
  0 ≤ hh && hh < 24 && 0 ≤ mi && mi < 60 && 0 ≤ ss && ss < 60

/-- Drop a fractional-seconds suffix `.digits` (1 to 6 digits), as accepted by
`fromisoformat`; the model works at one-second resolution so the fraction is
discarded. -/
def drop_fraction : List Char → Option (List Char)
  | '.' :: rest =>
    let ds := rest.takeWhile (fun c => c.isDigit)
    if 1 ≤ ds.length ∧ ds.length ≤ 6 then
      Option.some (rest.drop ds.length)
    else Option.none
  | rest => Option.some rest

/-- Parse the `fromisoformat` time part `HH[:MM[:SS[.f+]]]`. -/
def parse_iso_time (cs : List Char) : Option (Int × Int × Int × List Char) :=
  match parse2 cs with
  | Option.none => Option.none
  | Option.some (hh, rest1) =>
    match rest1 with
    | ':' :: rest2 =>
      match parse2 rest2 with
      | Option.none => Option.none
      | Option.some (mi, rest3) =>
        match rest3 with
        | ':' :: rest4 =>
          match parse2 rest4 with
          | Option.none => Option.none
          | Option.some (ss, rest5) =>
            match drop_fraction rest5 with
            | Option.none => Option.none
            | Option.some rest6 => Option.some (hh, mi, ss, rest6)
        | _ => Option.some (hh, mi, 0, rest3)
    | _ => Option.some (hh, 0, 0, rest1)

/-- Parse a trailing UTC-offset `+HH:MM` or `-HH:MM`; `some none` means the
input was exhausted with no offset (a naive datetime). -/
def parse_iso_offset : List Char → Option (Option Int)
  | [] => Option.some Option.none
  | c :: rest =>
    if c = '+' ∨ c = '-' then
      match parse2 rest with
      | Option.none => Option.none
      | Option.some (oh, rest1) =>
        match rest1 with
        | ':' :: rest2 =>
          match parse2 rest2 with
          | Option.some (om, []) =>
            if oh < 24 && om < 60 then
              let mag : Int := oh * 3600 + om * 60
              Option.some (Option.some (if c = '-' then -mag else mag))
            else Option.none
          | _ => Option.none
        | _ => Option.none
    else Option.none

/-- `datetime.fromisoformat`: civil fields plus an optional offset.  The
grammar is `YYYY-MM-DD` optionally followed by one separator character, a
time `HH[:MM[:SS[.f+]]]` and an offset `(+|-)HH:MM`. -/
def from_iso_fields (cs : List Char) :
    Option (Int × Int × Int × Int × Int × Int × Option Int) :=
  match parse4 cs with
  | Option.none => Option.none
  | Option.some (y, rest1) =>
    match rest1 with
    | '-' :: rest2 =>
      match parse2 rest2 with
      | Option.none => Option.none
      | Option.some (m, rest3) =>
        match rest3 with
        | '-' :: rest4 =>
          match parse2 rest4 with
          | Option.none => Option.none
          | Option.some (d, rest5) =>
            if ¬ valid_ymd y m d then Option.none
            else
              match rest5 with
              | [] => Option.some (y, m, d, 0, 0, 0, Option.none)
              | _ :: rest6 =>
                match parse_iso_time rest6 with
                | Option.none => Option.none
                | Option.some (hh, mi, ss, rest7) =>
                  if ¬ valid_hms hh mi ss then Option.none
                  else
                    match parse_iso_offset rest7 with
                    | Option.none => Option.none
                    | Option.some off => Option.some (y, m, d, hh, mi, ss, off)
        | _ => Option.none
    | _ => Option.none

/-- The instant (epoch seconds) denoted by a `fromisoformat` string, with a
naive result read in the `+08:00` zone (`dt.replace(tzinfo=CN_TZ)`). -/
def from_iso_epoch_cn (cs : List Char) : Option Int :=
  match from_iso_fields cs with
  | Option.none => Option.none
  | Option.some (y, m, d, hh, mi, ss, off) =>
    Option.some (epoch_of_civil y m d hh mi ss - off.getD 28800)

/-- `datetime.strptime(s, "%Y%m%d%H%M%S")` on a 14-digit string followed by
`.replace(tzinfo=CN_TZ).isoformat()`: the civil fields are kept and rendered
with the `+08:00` suffix. -/
def strptime14_iso (cs : List Char) : Option String :=
  match cs with
  | [y1, y2, y3, y4, m1, m2, d1, d2, h1, h2, i1, i2, s1, s2] =>
    let y := digits_val [y1, y2, y3, y4]
    let m := digits_val [m1, m2]
    let d := digits_val [d1, d2]
    let hh := digits_val [h1, h2]
    let mi := digits_val [i1, i2]
    let ss := digits_val [s1, s2]
    if valid_ymd y m d && valid_hms hh mi ss then
      Option.some (iso_of_civil y m d hh mi ss)
    else Option.none
  | _ => Option.none

/-- `datetime.strptime(s, "%Y%m%d")` on an 8-digit string followed by
`.replace(tzinfo=CN_TZ).isoformat()` (midnight in the `+08:00` zone). -/
def strptime8_iso (cs : List Char) : Option String :=
  match cs with
  | [y1, y2, y3, y4, m1, m2, d1, d2] =>
    let y := digits_val [y1, y2, y3, y4]
    let m := digits_val [m1, m2]
    let d := digits_val [d1, d2]
    if valid_ymd y m d then
      Option.some (iso_of_civil y m d 0 0 0)
    else Option.none
  | _ => Option.none

/-- Replace every space with `T` (applied when the string holds no `T`). -/
def space_to_T (cs : List Char) : List Char :=
  cs.map (fun c => if c = ' ' then 'T' else c)

/-- Replace every `Z` with `+00:00` (applied when the string ends in `Z`). -/
def z_to_utc (cs : List Char) : List Char :=
  cs.foldr (fun c acc => if c = 'Z' then '+' :: '0' :: '0' :: ':' :: '0' :: '0' :: acc else c :: acc) []

/-- The ISO branch of `_normalize_bar_end_ts`: space/Z handling, default
`+08:00` for an offset-free string, then parse and re-render at `+08:00`. -/
def normalize_iso_branch (cs0 : List Char) : Option String :=
  let cs := if cs0.contains 'T' then cs0 else space_to_T cs0
  let cs1 :=
    if cs.getLast? = Option.some 'Z' then z_to_utc cs
    else if ¬ cs.contains '+' then cs ++ ['+', '0', '8', ':', '0', '0']
    else cs
  match from_iso_epoch_cn cs1 with
  | Option.none => Option.none
  | Option.some e => cn_iso_of_epoch e

/-- Numeric branch of `_normalize_bar_end_ts`: epoch seconds, or epoch
milliseconds when the magnitude exceeds `1e12`; the instant is rendered in
the `+08:00` zone.  Sub-second components are dropped (one-second model),
so the millisecond division floors. -/
def normalize_num_branch (q : Int) : Option String :=
  let e : Int := if q > 1000000000000 then q.fdiv 1000 else q
  cn_iso_of_epoch e

/-- Python `str.strip()` on a character list. -/
def list_strip (cs : List Char) : List Char :=
  ((cs.dropWhile (fun c => c.isWhitespace)).reverse.dropWhile
    (fun c => c.isWhitespace)).reverse

/-- Python `str.strip()` on a string. -/
def py_strip (s : String) : String := String.mk (list_strip s.data)

/-- `RealtimeSubscriptionService._normalize_bar_end_ts`
(`core/realtime_service.py` lines 382-416).  Every failure path of the Python
code (exceptions included) returns `None`, modelled as `none`.  A Python
`bool` is an `int` there, so it takes the numeric branch. -/
def normalize_bar_end_ts (raw : PyVal) : Option String :=
  match raw with
  | PyVal.none => Option.none
  | PyVal.bool b => normalize_num_branch (if b then 1 else 0)
  | PyVal.num q => normalize_num_branch q
  | PyVal.str s =>
    let cs := list_strip s.data
    if cs = [] then Option.none
    else if cs.all (fun c => c.isDigit) && cs.length = 14 then strptime14_iso cs
    else if cs.all (fun c => c.isDigit) && cs.length = 8 then strptime8_iso cs
    else normalize_iso_branch cs

/-! ## Realtime subscription service (`core/realtime_service.py`)

External effects are modelled explicitly: the Redis bus is the `out_bus`
list (the publisher is assumed reliable here; retry behaviour is modelled
separately with the publisher embedding), wall-clock readings are a logical
counter `clock`, and the vendor subscribe/unsubscribe calls are assumed to
succeed (mock mode makes none).
-/

/-- `_BarState`: per-key forming-bar cache (`realtime_service.py` 89-97). -/
structure BarSt where
  current_payload : Option PyDict := Option.none
  current_dt : Option Int := Option.none
  last_published_dt : Option Int := Option.none
deriving DecidableEq, Repr

/-- A dedup fingerprint: `(code, period, bar_end_ts)` in close-only mode and
`(code, period, bar_end_ts, flag)` in forming-and-close mode; the optional
fourth component distinguishes the two tuple shapes. -/
abbrev DKey := PyVal × PyVal × PyVal × Option Nat

/-- Generic association-list lookup. -/
def alookup {α β : Type} [DecidableEq α] : List (α × β) → α → Option β
  | [], _ => Option.none
  | (k0, v0) :: rest, k => if k0 = k then Option.some v0 else alookup rest k

/-- Generic association-list update (replace in place, else append). -/
def aset {α β : Type} [DecidableEq α] : List (α × β) → α → β → List (α × β)
  | [], k, v => [(k, v)]
  | (k0, v0) :: rest, k, v =>
    if k0 = k then (k0, v) :: rest else (k0, v0) :: aset rest k v

/-- Remove a key (Python `dict.pop(key, None)`). -/
def aremove {α β : Type} [DecidableEq α] (l : List (α × β)) (k : α) :
    List (α × β) :=
  l.filter (fun kv => kv.1 ≠ k)

/-- The in-memory state of `RealtimeSubscriptionService`. -/
structure SvcState where
  subs : List (String × String) := []
  bar_states : List ((String × String) × BarSt) := []
  dedup_set : List DKey := []
  dedup_q : List DKey := []
  last_pub_ts : List ((PyVal × PyVal) × Nat) := []
  clock : Nat := 0
  out_bus : List PyDict := []
deriving DecidableEq, Repr

/-- Service configuration (the fields the modelled paths read). -/
structure RtCfg where
  mode : String := "close_only"
  dedup_max : Nat := 50000
deriving DecidableEq, Repr

/-- The fresh service state. -/
def init_svc : SvcState := {}

/-- `_is_dup_and_mark` (`realtime_service.py` 634-648): LRU membership test
and insertion with FIFO eviction past capacity. -/
def is_dup_and_mark (maxN : Nat) (ds : List DKey) (q : List DKey)
    (k : DKey) : Bool × List DKey × List DKey :=
  if k ∈ ds then (true, ds, q)
  else
    let ds1 := ds ++ [k]
    let q1 := q ++ [k]
    if maxN < q1.length then
      match q1 with
      | [] => (false, ds1, q1)
      | old :: rest => (false, ds1.erase old, rest)
    else (false, ds1, q1)

/-- `d.get(k)` with the Python `None` for an absent key. -/
def pyget (d : PyDict) (k : String) : PyVal := (dget d k).getD PyVal.none

/-- Python `a or b` on values. -/
def pyor (a b : PyVal) : PyVal := if truthy a then a else b

/-- `_publish_payload` (`realtime_service.py` 529-550): mode gating, dedup,
enrichment, bus publish and last-publish bookkeeping. -/
def publish_payload (cfg : RtCfg) (st : SvcState) (payload : PyDict) :
    SvcState :=
  let code := pyget payload "code"
  let period := pyget payload "period"
  let bar_ts := pyget payload "bar_end_ts"
  if ¬ (truthy code ∧ truthy period ∧ truthy bar_ts) then st
  else
    let is_closed := truthy (pyget payload "is_closed")
    if cfg.mode = "close_only" ∧ ¬ is_closed then st
    else
      let dkey : DKey :=
        if cfg.mode = "forming_and_close" then
          (code, period, bar_ts, Option.some (if is_closed then 1 else 0))
        else (code, period, bar_ts, Option.none)
      match is_dup_and_mark cfg.dedup_max st.dedup_set st.dedup_q dkey with
      | (true, _, _) => st
      | (false, ds, q) =>
        let enriched :=
          dset (dsetdefault payload "source" (PyVal.str "qmt"))
            "recv_ts" (PyVal.str (toString st.clock))
        { st with
          dedup_set := ds
          dedup_q := q
          out_bus := st.out_bus ++ [enriched]
          last_pub_ts := aset st.last_pub_ts (code, period) st.clock
          clock := st.clock + 1 }

/-- `_handle_bar_update` (`realtime_service.py` 480-527): the bar state
machine.  Returns the updated state (after pushing every queued emission
through `publish_payload`) together with the queued `to_publish` emissions,
each tagged with the bar-end instant it stands for (the forming entries use
the incoming `bar_dt`, the closed entry uses the finalized bar instant). -/
def handle_bar_update (cfg : RtCfg) (st : SvcState) (code period : String)
    (bar_dt : Int) (payload : PyDict) : SvcState × List (Int × PyDict) :=
  let key := (code, period)
  let store :=
    dset (dset (dset payload "code" (PyVal.str code))
      "period" (PyVal.str period)) "is_closed" (PyVal.bool false)
  let forming :=
    if cfg.mode = "forming_and_close" then
      [(bar_dt, dset store "is_closed" (PyVal.bool false))]
    else []
  let step : SvcState × List (Int × PyDict) :=
    match alookup st.bar_states key with
    | Option.none =>
      let bs' : BarSt :=
        ⟨Option.some store, Option.some bar_dt, Option.none⟩
      ({ st with bar_states := st.bar_states ++ [(key, bs')] }, forming)
    | Option.some bs =>
      match bs.current_dt with
      | Option.none =>
        let bs' : BarSt :=
          ⟨Option.some store, Option.some bar_dt, bs.last_published_dt⟩
        ({ st with bar_states := aset st.bar_states key bs' }, forming)
      | Option.some cur =>
        if bar_dt < cur then (st, [])
        else if bar_dt = cur then
          let bs' : BarSt := { bs with current_payload := Option.some store }
          ({ st with bar_states := aset st.bar_states key bs' }, forming)
        else
          let closed : List (Int × PyDict) :=
            match bs.current_payload with
            | Option.some p =>
              if p = [] then [] else [(cur, dset p "is_closed" (PyVal.bool true))]
            | Option.none => []
          let newL : Option Int :=
            match bs.current_payload with
            | Option.some p => if p = [] then bs.last_published_dt else Option.some cur
            | Option.none => bs.last_published_dt
          let bs' : BarSt := ⟨Option.some store, Option.some bar_dt, newL⟩
          ({ st with bar_states := aset st.bar_states key bs' }, closed ++ forming)
  let st1 := step.1
  let ems := step.2
  (ems.foldl (fun s ep => publish_payload cfg s ep.2) st1, ems)

/-- `_build_payload_from_row` (`realtime_service.py` 597-628): alias
resolution and the wide-record literal; `clock` stands for the wall-clock
reading used for `recv_ts`. -/
def build_payload_from_row (clock : Nat) (code period : String)
    (row : PyDict) : Option PyDict :=
  let raw_ts :=
    pyor (pyget row "time") (pyor (pyget row "Time")
      (pyor (pyget row "barTime") (pyget row "bar_time")))
  match normalize_bar_end_ts raw_ts with
  | Option.none => Option.none
  | Option.some bar_end_ts =>
    let ic0 := pyget row "isClosed"
    let ic1 := if ic0 = PyVal.none then pyget row "isClose" else ic0
    let ic2 := if ic1 = PyVal.none then pyget row "closed" else ic1
    let icv := if ic2 = PyVal.none then PyVal.none else PyVal.bool (truthy ic2)
    let src := pyor (pyget row "source") (PyVal.str "qmt")
    Option.some
      [("code", PyVal.str code), ("period", PyVal.str period),
       ("bar_end_ts", PyVal.str bar_end_ts), ("is_closed", icv),
       ("open", pyget row "open"), ("high", pyget row "high"),
       ("low", pyget row "low"), ("close", pyget row "close"),
       ("volume", pyget row "volume"), ("amount", pyget row "amount"),
       ("preClose", pyget row "preClose"),
       ("suspendFlag", pyget row "suspendFlag"),
       ("openInterest", pyget row "openInterest"),
       ("settlementPrice",
         pyor (pyget row "settlementPrice") (pyget row "settelementPrice")),
       ("source", src), ("recv_ts", PyVal.str (toString clock))]

/-- Normalize one raw row into a `(bar_dt, payload)` pair, or drop it
(`realtime_service.py` 455-468). -/
def normalize_row (clock : Nat) (code period : String) (row : PyDict) :
    Option (Int × PyDict) :=
  match build_payload_from_row clock code period row with
  | Option.none => Option.none
  | Option.some payload =>
    match normalize_bar_end_ts (pyget payload "bar_end_ts") with
    | Option.none => Option.none
    | Option.some bar_iso =>
      let payload1 := dset payload "bar_end_ts" (PyVal.str bar_iso)
      match from_iso_epoch_cn bar_iso.data with
      | Option.none => Option.none
      | Option.some bar_dt => Option.some (bar_dt, payload1)

/-- Stable insertion keeping earlier entries with equal instants first. -/
def insert_by_dt (x : Int × PyDict) : List (Int × PyDict) → List (Int × PyDict)
  | [] => [x]
  | y :: ys => if y.1 ≤ x.1 then y :: insert_by_dt x ys else x :: y :: ys

/-- Stable ascending sort by `bar_dt` (Python `list.sort` is stable). -/
def sort_by_dt (l : List (Int × PyDict)) : List (Int × PyDict) :=
  l.foldl (fun acc x => insert_by_dt x acc) []

/-- `_on_datas` (`realtime_service.py` 442-475): normalize each row of each
code, sort by bar instant, then feed the bar state machine.  Returns the
final state and the concatenated `to_publish` emissions. -/
def on_datas (cfg : RtCfg) (st : SvcState) (period : String)
    (datas : List (String × List PyDict)) : SvcState × List (Int × PyDict) :=
  datas.foldl
    (fun acc cr =>
      let rows := cr.2
      if rows = [] then acc
      else
        let normalized := rows.filterMap (normalize_row acc.1.clock cr.1 period)
        if normalized = [] then acc
        else
          (sort_by_dt normalized).foldl
            (fun a dp =>
              let r := handle_bar_update cfg a.1 cr.1 period dp.1 dp.2
              (r.1, a.2 ++ r.2))
            acc)
    (st, [])

/-- Run a list of vendor callbacks (each one period with its datas map). -/
def run_batches (cfg : RtCfg) (st : SvcState)
    (batches : List (String × List (String × List PyDict))) :
    SvcState × List (Int × PyDict) :=
  batches.foldl
    (fun acc b =>
      let r := on_datas cfg acc.1 b.1 b.2
      (r.1, acc.2 ++ r.2))
    (st, [])

/-- Feed a single key a list of pre-normalized `(bar_dt, payload)` events
through the bar state machine, collecting the emissions. -/
def run_events (cfg : RtCfg) (code period : String) (st : SvcState)
    (events : List (Int × PyDict)) : SvcState × List (Int × PyDict) :=
  events.foldl
    (fun acc dp =>
      let r := handle_bar_update cfg acc.1 code period dp.1 dp.2
      (r.1, acc.2 ++ r.2))
    (st, [])

/-- `add_subscription` (`realtime_service.py` 316-340), with preload and the
vendor registration modelled as succeeding: every new key joins the active
set, keys already active are skipped. -/
def add_subscription (st : SvcState) (codes periods : List String) :
    SvcState :=
  codes.foldl
    (fun s c =>
      periods.foldl
        (fun s2 p =>
          if (c, p) ∈ s2.subs then s2
          else { s2 with subs := s2.subs ++ [(c, p)] })
        s)
    st

/-- `remove_subscription` (`realtime_service.py` 342-368), with the vendor
unsubscribe modelled as succeeding: active keys leave the subscription set
and their bar state is dropped; nothing else is touched. -/
def remove_subscription (st : SvcState) (codes periods : List String) :
    SvcState :=
  codes.foldl
    (fun s c =>
      periods.foldl
        (fun s2 p =>
          if (c, p) ∈ s2.subs then
            { s2 with
              subs := s2.subs.erase (c, p)
              bar_states := aremove s2.bar_states (c, p) }
          else s2)
        s)
    st

/-! ## Metrics and publisher (`core/metrics.py`, `core/pubsub_publisher.py`) -/

/-- The instance and global counters of `Metrics` (instance counters
`published`, `publish_fail`, `dedup_hit`; process-global counters
`bars_published_total`, `schema_drop_total`, `late_bars_total`). -/
structure Counters where
  published : Nat := 0
  publish_fail : Nat := 0
  dedup_hit : Nat := 0
  bars_published_total : Nat := 0
  schema_drop_total : Nat := 0
  late_bars_total : Nat := 0
deriving DecidableEq, Repr

/-- `Metrics.inc_published` (`core/metrics.py` 59-69): instance counter plus
the global `bars_published_total`. -/
def inc_published (m : Counters) : Counters :=
  { m with published := m.published + 1
           bars_published_total := m.bars_published_total + 1 }

/-- `Metrics.inc_publish_fail` (`core/metrics.py` 71-80). -/
def inc_publish_fail (m : Counters) : Counters :=
  { m with publish_fail := m.publish_fail + 1 }

/-- `Metrics.mark_schema_drop` (`core/metrics.py` 163-172). -/
def mark_schema_drop (m : Counters) : Counters :=
  { m with schema_drop_total := m.schema_drop_total + 1 }

/-- The retry loop of `PubSubPublisher.publish` (`core/pubsub_publisher.py`
51-68).  `busOk i` tells whether the i-th transport attempt succeeds.
Result: counters, number of attempts made, and `true` when the call returned
normally (`false` when it raised after exhausting retries).  The loop body
runs for `i` in `range maxR`; `fuel = maxR - i` drives the recursion. -/
def publish_loop (busOk : Nat → Bool) (maxR : Nat) :
    Nat → Nat → Counters → Counters × Nat × Bool
  | 0, i, m => (m, i, true)
  | fuel + 1, i, m =>
    if busOk i then (inc_published m, i + 1, true)
    else
      let m1 := inc_publish_fail m
      if i = maxR - 1 then (m1, i + 1, false)
      else publish_loop busOk maxR fuel (i + 1) m1

/-- `PubSubPublisher.publish` with a given transport behaviour. -/
def publisher_publish (busOk : Nat → Bool) (maxR : Nat) (m : Counters) :
    Counters × Nat × Bool :=
  publish_loop busOk maxR maxR 0 m

/-! ## Schema guard (`core/schema_guard.py`) -/

/-- The required outbound fields (`schema_guard.py` 23-24). -/
def required_fields : List String :=
  ["code", "period", "bar_end_ts", "is_closed", "open", "high", "low", "close"]

/-- `_is_plus8` (`schema_guard.py` 26-30): the value must be a string ending
in `+08:00` and containing `T` or a space. -/
def is_plus8 : PyVal → Bool
  | PyVal.str s =>
    List.isSuffixOf ['+', '0', '8', ':', '0', '0'] s.data
      && (s.data.contains 'T' || s.data.contains ' ')
  | _ => false

/-- `validate_bar_payload` (`schema_guard.py` 32-51): required-field check,
the close-only closed-flag check, and the +08:00 timestamp-shape check.
Reason strings are paraphrased from the Chinese originals. -/
def validate_bar_payload (payload : PyDict) (mode : String) : Bool × String :=
  match required_fields.find? (fun k => (dget payload k).isNone) with
  | Option.some k => (false, "missing required field: " ++ k)
  | Option.none =>
    if mode = "close_only" ∧ pyget payload "is_closed" ≠ PyVal.bool true then
      (false, "close_only requires is_closed=True")
    else if ¬ is_plus8 (pyget payload "bar_end_ts") then
      (false, "bar_end_ts must be a +08:00 time string")
    else (true, "")

/-! ## Registry and control plane (`core/registry.py`, `core/control_plane.py`)

The Redis key space is modelled per prefix: the `subs` set, the per-sub hash,
and the per-strategy sets (a Redis set vanishes when its last member is
removed, which the strategy-set model mirrors).
-/

/-- `SubscriptionSpec` (`registry.py` 23-35). -/
structure SubSpec where
  strategy_id : String
  codes : List String
  periods : List String
  mode : String
  preload_days : Int
  topic : String
  created_at : Int
deriving DecidableEq, Repr

/-- `json.dumps` of a list of strings (shape only; enough to be a faithful
injective encoding for the registry model). -/
def json_str_list (l : List String) : String :=
  "[" ++ String.intercalate ", " (l.map (fun s => "\x22" ++ s ++ "\x22")) ++ "]"

/-- `Registry._encode_mapping(asdict(spec))` (`registry.py` 59-71): every
field rendered as a string, lists as JSON. -/
def encode_mapping (s : SubSpec) : List (String × String) :=
  [("strategy_id", s.strategy_id),
   ("codes", json_str_list s.codes),
   ("periods", json_str_list s.periods),
   ("mode", s.mode),
   ("preload_days", toString s.preload_days),
   ("topic", s.topic),
   ("created_at", toString s.created_at)]

/-- The registry Redis state under one prefix. -/
structure RegState where
  subs_set : List String := []
  sub_hash : List (String × List (String × String)) := []
  strat_subs : List (String × List String) := []
deriving DecidableEq, Repr

/-- Redis `SADD` on a plain set. -/
def sadd (l : List String) (x : String) : List String :=
  if x ∈ l then l else l ++ [x]

/-- Redis `SADD` on a keyed set (creates the key when absent). -/
def strat_sadd (m : List (String × List String)) (k x : String) :
    List (String × List String) :=
  match alookup m k with
  | Option.none => m ++ [(k, [x])]
  | Option.some l => aset m k (sadd l x)

/-- Redis `SREM` on a keyed set (a set whose last member goes vanishes). -/
def strat_srem (m : List (String × List String)) (k x : String) :
    List (String × List String) :=
  match alookup m k with
  | Option.none => m
  | Option.some l =>
    let l1 := l.erase x
    if l1 = [] then aremove m k else aset m k l1

/-- `Registry.save` (`registry.py` 90-94): hash write plus both set adds. -/
def registry_save (r : RegState) (sub_id : String) (spec : SubSpec) :
    RegState :=
  { r with
    sub_hash := aset r.sub_hash sub_id (encode_mapping spec)
    subs_set := sadd r.subs_set sub_id
    strat_subs := strat_sadd r.strat_subs spec.strategy_id sub_id }

/-- `Registry.delete` (`registry.py` 96-101): strategy-set removal guarded by
the stored hash, then hash delete and subs-set removal. -/
def registry_delete (r : RegState) (sub_id : String) : RegState :=
  let r1 :=
    match alookup r.sub_hash sub_id with
    | Option.some data =>
      if data ≠ [] then
        match alookup data "strategy_id" with
        | Option.some sid =>
          { r with strat_subs := strat_srem r.strat_subs sid sub_id }
        | Option.none => r
      else r
    | Option.none => r
  { r1 with
    sub_hash := aremove r1.sub_hash sub_id
    subs_set := r1.subs_set.erase sub_id }

/-- An ACK message (the JSON object fields used by subscribe handling). -/
structure Ack where
  ok : Bool
  action : Option String := Option.none
  error : Option String := Option.none
  sub_id : Option String := Option.none
  codes : Option (List String) := Option.none
  periods : Option (List String) := Option.none
  mode : Option String := Option.none
  topic : Option String := Option.none
deriving DecidableEq, Repr

/-- `ControlPlane._handle_subscribe` (`control_plane.py` 74-101).  The
generated `sub_id` and the engine outcome (`svc.add_subscription` returning
or raising) are parameters; `now` stands for the wall clock.  Returns the
registry state after the command and the ACK that is published. -/
def handle_subscribe (allow : List String) (reg : RegState)
    (strategy_id_raw : String) (codes_raw periods_raw : List String)
    (mode topic : String) (preload_days : Int) (sub_id : String)
    (now : Int) (engine : Except String Unit) : RegState × Ack :=
  let strategy_id := py_strip strategy_id_raw
  if strategy_id = "" ∨ (allow ≠ [] ∧ strategy_id ∉ allow) then
    (reg, { ok := false, error := Option.some "strategy not allowed" })
  else
    let codes := (codes_raw.map py_strip).filter (fun s => s ≠ "")
    let periods := (periods_raw.map py_strip).filter (fun s => s ≠ "")
    if codes = [] ∨ periods = [] then
      (reg, { ok := false, error := Option.some "codes/periods required" })
    else
      let spec : SubSpec :=
        ⟨strategy_id, codes, periods, mode, preload_days, topic, now⟩
      let reg1 := registry_save reg sub_id spec
      match engine with
      | Except.ok _ =>
        (reg1,
         { ok := true, action := Option.some "subscribe"
           sub_id := Option.some sub_id, codes := Option.some codes
           periods := Option.some periods, mode := Option.some mode
           topic := Option.some topic })
      | Except.error msg =>
        (registry_delete reg1 sub_id,
         { ok := false, error := Option.some ("subscribe failed: " ++ msg) })

/-! ## History API open-timestamp derivation (`core/history_api.py`) -/

/-- The period length table of `_convert_to_rows`
(`history_api.py` line 126), in seconds. -/
def history_delta (period : String) : Option Int :=
  if period = "1m" then Option.some 60
  else if period = "1h" then Option.some 3600
  else if period = "1d" then Option.some 86400
  else Option.none

/-- The open/end instants of one converted history row
(`history_api.py` 161-170): `dt_open = dt_end - delta`. -/
def history_open_end (period : String) (end_epoch : Int) :
    Option (Int × Int) :=
  match history_delta period with
  | Option.none => Option.none
  | Option.some delta => Option.some (end_epoch - delta, end_epoch)

/-! ## Concrete end-to-end scenarios -/

/-- A minimal vendor row: a time string and a close price (price scaled by
1000, carried opaquely by the pipeline). -/
def mk_row (ts : String) (close : Int) : PyDict :=
  [("time", PyVal.str ts), ("close", PyVal.num close)]

/-- Projection of the published bus messages onto the fields the scenarios
talk about: bar_end_ts, close and is_closed. -/
def pub_view (st : SvcState) : List (PyVal × PyVal × PyVal) :=
  st.out_bus.map (fun p => (pyget p "bar_end_ts", pyget p "close", pyget p "is_closed"))

/-- The forming-and-close scenario feed: for key (510050.SH, 1m) the events
arrive at 09:31:00 (close 2.510), 09:31:00 (close 2.515), 09:32:00
(close 2.520), one vendor callback each. -/
def c1_result : SvcState × List (Int × PyDict) :=
  run_batches { mode := "forming_and_close" } init_svc
    [("1m", [("510050.SH", [mk_row "2025-09-17 09:31:00" 2510])]),
     ("1m", [("510050.SH", [mk_row "2025-09-17 09:31:00" 2515])]),
     ("1m", [("510050.SH", [mk_row "2025-09-17 09:32:00" 2520])])]

/-- C1 counterexample: the forming-and-close scenario does NOT produce four
publishes — only three reach the bus, because the dedup fingerprint of the
second forming update (code, period, bar_end_ts, is_closed=false) equals the
fingerprint of the first forming publish, so the repeated forming bar is
suppressed by the LRU. -/
theorem C1_counterexample_not_four_publishes :
    c1_result.1.out_bus.length ≠ 4 := by
  have h : c1_result.1.out_bus.length = 3 := by decide
  omega

/-- C1 amended: in forming_and_close mode the scenario feed 09:31:00 (2.510),
09:31:00 (2.515), 09:32:00 (2.520) results in exactly three publishes, in
order: 09:31:00 close 2.510 forming, 09:31:00 close 2.515 closed, 09:32:00
close 2.520 forming.  The second forming update replaces the stored payload
(so the later close 2.515 wins in the closed bar) but its own forming
publish is suppressed by the dedup LRU. -/
theorem C1_amended_three_publishes :
    pub_view c1_result.1 =
      [(PyVal.str "2025-09-17T09:31:00+08:00", PyVal.num 2510, PyVal.bool false),
       (PyVal.str "2025-09-17T09:31:00+08:00", PyVal.num 2515, PyVal.bool true),
       (PyVal.str "2025-09-17T09:32:00+08:00", PyVal.num 2520, PyVal.bool false)] := by
  decide

/-- The close-only scenario feed: two events for bar_end_ts 09:31:00 with
close 2.515, then one event at 09:32:00 (close 2.520). -/
def c2_result : SvcState × List (Int × PyDict) :=
  run_batches { mode := "close_only" } init_svc
    [("1m", [("510050.SH", [mk_row "2025-09-17 09:31:00" 2515])]),
     ("1m", [("510050.SH", [mk_row "2025-09-17 09:31:00" 2515])]),
     ("1m", [("510050.SH", [mk_row "2025-09-17 09:32:00" 2520])])]

/-- C2: in close_only mode the scenario publishes exactly one payload — the
09:31:00 bar with close 2.515 and is_closed true — while the 09:32:00 bar
stays forming in the per-key state (its payload is cached with the later
close, its instant is the current_dt) and is never published. -/
theorem C2_close_only_single_publish :
    pub_view c2_result.1 =
      [(PyVal.str "2025-09-17T09:31:00+08:00", PyVal.num 2515, PyVal.bool true)]
    ∧ (alookup c2_result.1.bar_states ("510050.SH", "1m")).map
        (fun bs =>
          (bs.current_dt, bs.last_published_dt,
           bs.current_payload.map (fun p => (pyget p "bar_end_ts", pyget p "close")))) =
      Option.some
        (Option.some 1758072720, Option.some 1758072660,
         Option.some (PyVal.str "2025-09-17T09:32:00+08:00", PyVal.num 2520)) := by
  constructor
  · decide
  · decide

/-- An outbound close-only payload that is missing its close field (open,
high and low present, prices scaled by 1000). -/
def c5_payload : PyDict :=
  [("code", PyVal.str "510050.SH"), ("period", PyVal.str "1m"),
   ("bar_end_ts", PyVal.str "2025-09-17T09:31:00+08:00"),
   ("is_closed", PyVal.bool true), ("open", PyVal.num 2510),
   ("high", PyVal.num 2520), ("low", PyVal.num 2500)]

/-- C5 divergence: the schema guard, as specified and as implemented in
`validate_bar_payload`, rejects a payload missing close — yet
`_publish_payload` never invokes the guard, so the very same payload is
published to the bus unchanged (still with no close field) and
schema_drop_total is never touched by the publish path. -/
theorem C5_guard_not_wired :
    (validate_bar_payload c5_payload "close_only").1 = false
    ∧ (publish_payload { mode := "close_only" } init_svc c5_payload).out_bus.map
        (fun p => dget p "close") = [Option.none]
    ∧ (publish_payload { mode := "close_only" } init_svc c5_payload).out_bus.map
        (fun p => pyget p "bar_end_ts") =
        [PyVal.str "2025-09-17T09:31:00+08:00"] := by
  refine ⟨by decide, by decide, by decide⟩

/-- C6 counterexample: an emitted realtime bar carries no bar_open_ts field
at all — the close-only scenario publishes its closed bar with
dget bar_open_ts = none, so the claimed equation cannot hold for it. -/
theorem C6_counterexample_no_open_ts_field :
    c2_result.1.out_bus.map (fun p => dget p "bar_open_ts") = [Option.none]
    ∧ c2_result.1.out_bus ≠ [] := by
  refine ⟨by decide, by decide⟩

/-! ## Publisher retry scenarios -/

/-- A bus transport that fails the first two attempts and succeeds on the
third. -/
def fail_twice_bus (i : Nat) : Bool := 2 ≤ i

/-- C4 counterexample: with a bus failing twice then succeeding, publish
makes three attempts and ends with published = 1, but publish_fail reads 2,
not 0 — `inc_publish_fail` runs on every failed attempt, not only when the
retries are exhausted. -/
theorem C4_counterexample_fail_counter :
    (publisher_publish fail_twice_bus 3 {}).2.1 = 3
    ∧ (publisher_publish fail_twice_bus 3 {}).1.published = 1
    ∧ (publisher_publish fail_twice_bus 3 {}).1.publish_fail ≠ 0 := by
  refine ⟨by decide, by decide, by decide⟩

/-- With a permanently failing transport the retry loop increments
publish_fail once per attempt and raises after the last one. -/
theorem publish_loop_all_fail (maxR : Nat) :
    ∀ fuel i m, 1 ≤ fuel → i + fuel = maxR →
      publish_loop (fun _ => false) maxR fuel i m =
        ({ m with publish_fail := m.publish_fail + fuel }, maxR, false) := by
  intro fuel
  induction fuel with
  | zero => intro i m h1 _; exact absurd h1 (by omega)
  | succ fuel ih =>
    intro i m h1 h2
    cases fuel with
    | zero =>
      have hi : i = maxR - 1 := by omega
      simp only [publish_loop, Bool.false_eq_true, if_false, if_pos hi,
        inc_publish_fail]
      refine congrArg₂ Prod.mk rfl (congrArg₂ Prod.mk (by omega) rfl)
    | succ fuel' =>
      have hi : ¬ i = maxR - 1 := by omega
      rw [publish_loop]
      simp only [Bool.false_eq_true, if_false, if_neg hi]
      rw [ih (i + 1) (inc_publish_fail m) (by omega) (by omega)]
      simp only [inc_publish_fail]
      refine congrArg₂ Prod.mk ?_ rfl
      simp only [Counters.mk.injEq, and_true, true_and]
      omega

/-- C4 amended: with a bus failing the first two attempts and succeeding on
the third, publish makes exactly three attempts, returns normally and reads
published = 1 and publish_fail = 2 (one per failed attempt, not only on
exhaustion); with a permanently failing bus, exactly max_retries attempts
are made, publish_fail grows by max_retries and the error is raised to the
caller; and a subsequent publish call for a later bar still proceeds and
succeeds on a healthy bus, so the stream continues. -/
theorem C4_amended_retry_and_counters :
    ((publisher_publish fail_twice_bus 3 {}).1.published = 1
      ∧ (publisher_publish fail_twice_bus 3 {}).1.publish_fail = 2
      ∧ (publisher_publish fail_twice_bus 3 {}).2 = (3, true))
    ∧ (∀ maxR m, 1 ≤ maxR →
        publisher_publish (fun _ => false) maxR m =
          ({ m with publish_fail := m.publish_fail + maxR }, maxR, false))
    ∧ (∀ maxR m, 1 ≤ maxR →
        publisher_publish (fun _ => true) maxR m = (inc_published m, 1, true)) := by
  refine ⟨⟨by decide, by decide, by decide⟩, ?_, ?_⟩
  · intro maxR m h
    exact publish_loop_all_fail maxR maxR 0 m h (by omega)
  · intro maxR m h
    cases maxR with
    | zero => exact absurd h (by omega)
    | succ n => simp [publisher_publish, publish_loop]

/-- Witness for the C4 amended theorem at a concrete instance. -/
theorem C4_amended_witness :
    1 ≤ 3
    ∧ publisher_publish (fun _ => false) 3 {} =
        ({ ({} : Counters) with
            publish_fail := ({} : Counters).publish_fail + 3 }, 3, false) :=
  ⟨by omega, C4_amended_retry_and_counters.2.1 3 {} (by omega)⟩

/-! ## Out-of-order drop (claim C8) -/

/-- C8: when a key holds a published high-water mark l (and, as in every
reachable state, the forming bar instant is strictly later than l), an
incoming event at bar_dt less than or equal to l is dropped: the state
machine returns the service state exactly unchanged and queues no emission,
so nothing reaches the bus. -/
theorem C8_stale_event_dropped (cfg : RtCfg) (st : SvcState)
    (code period : String) (bar_dt : Int) (payload : PyDict) (bs : BarSt)
    (l d : Int)
    (hlk : alookup st.bar_states (code, period) = Option.some bs)
    (_hl : bs.last_published_dt = Option.some l)
    (hd : bs.current_dt = Option.some d)
    (hld : l < d) (hstale : bar_dt ≤ l) :
    handle_bar_update cfg st code period bar_dt payload = (st, []) := by
  have hlt : bar_dt < d := by omega
  simp only [handle_bar_update, hlk, hd, if_pos hlt]
  rfl

/-- Witness for C8 at a concrete state: the key holds last_published_dt 100
and current_dt 160, and an event at bar_dt 40 is dropped unchanged. -/
theorem C8_witness :
    handle_bar_update { mode := "close_only" }
      { init_svc with
        bar_states :=
          [(("510050.SH", "1m"),
            ⟨Option.some [("code", PyVal.str "510050.SH")],
             Option.some 160, Option.some 100⟩)] }
      "510050.SH" "1m" 40 [("close", PyVal.num 2510)] =
    ({ init_svc with
       bar_states :=
         [(("510050.SH", "1m"),
           ⟨Option.some [("code", PyVal.str "510050.SH")],
            Option.some 160, Option.some 100⟩)] }, []) :=
  C8_stale_event_dropped { mode := "close_only" } _ "510050.SH" "1m" 40 _
    ⟨Option.some [("code", PyVal.str "510050.SH")], Option.some 160,
     Option.some 100⟩ 100 160 (by decide) rfl rfl (by decide) (by decide)

/-! ## Subscription removal frame effects (claim C10) -/

/-- A predicate preserved by every fold step is preserved by the fold. -/
theorem foldl_preserve {α β : Type} {P : α → Prop} (f : α → β → α)
    (hf : ∀ a b, P a → P (f a b)) :
    ∀ (l : List β) (a : α), P a → P (List.foldl f a l) := by
  intro l
  induction l with
  | nil => intro a h; exact h
  | cons x xs ih => intro a h; exact ih (f a x) (hf a x h)

/-- alookup misses exactly the keys outside the key column. -/
theorem alookup_eq_none_iff {α β : Type} [DecidableEq α]
    (l : List (α × β)) (k : α) :
    alookup l k = Option.none ↔ k ∉ l.map Prod.fst := by
  induction l with
  | nil => simp [alookup]
  | cons kv rest ih =>
    obtain ⟨k0, v0⟩ := kv
    by_cases h : k0 = k
    · subst h; simp [alookup]
    · simp [alookup, h, ih, Ne.symm h]

/-- Removing a key removes its binding. -/
theorem alookup_aremove_self {α β : Type} [DecidableEq α]
    (l : List (α × β)) (k : α) :
    alookup (aremove l k) k = Option.none := by
  rw [alookup_eq_none_iff]
  intro hmem
  obtain ⟨kv, hkv, hfst⟩ := List.mem_map.mp hmem
  have := List.of_mem_filter hkv
  simp only [decide_eq_true_eq] at this
  exact this (by rw [hfst])

/-- Removing some key cannot create a binding for another. -/
theorem alookup_aremove_none {α β : Type} [DecidableEq α]
    (l : List (α × β)) (k k0 : α) (h : alookup l k0 = Option.none) :
    alookup (aremove l k0) k = Option.none →
      alookup (aremove l k) k0 = Option.none := by
  intro _
  rw [alookup_eq_none_iff] at h ⊢
  intro hmem
  obtain ⟨kv, hkv, hfst⟩ := List.mem_map.mp hmem
  exact h (List.mem_map.mpr ⟨kv, List.mem_of_mem_filter hkv, hfst⟩)

/-- Absence survives aremove of any key. -/
theorem alookup_aremove_of_none {α β : Type} [DecidableEq α]
    (l : List (α × β)) (k k0 : α) (h : alookup l k0 = Option.none) :
    alookup (aremove l k) k0 = Option.none := by
  rw [alookup_eq_none_iff] at h ⊢
  intro hmem
  obtain ⟨kv, hkv, hfst⟩ := List.mem_map.mp hmem
  exact h (List.mem_map.mpr ⟨kv, List.mem_of_mem_filter hkv, hfst⟩)

/-- One inner removal step (one period for one code). -/
def remove_step (c : String) (s2 : SvcState) (p : String) : SvcState :=
  if (c, p) ∈ s2.subs then
    { s2 with
      subs := s2.subs.erase (c, p)
      bar_states := aremove s2.bar_states (c, p) }
  else s2

/-- remove_subscription is the double fold of remove_step. -/
theorem remove_subscription_eq (st : SvcState) (codes periods : List String) :
    remove_subscription st codes periods =
      codes.foldl (fun s c => periods.foldl (remove_step c) s) st := by
  rfl

/-- Key absence (in the active set and in the bar-state map) survives every
removal step. -/
theorem remove_step_absence (c : String) (k : String × String)
    (s2 : SvcState) (p : String)
    (h : k ∉ s2.subs ∧ alookup s2.bar_states k = Option.none) :
    k ∉ (remove_step c s2 p).subs
      ∧ alookup (remove_step c s2 p).bar_states k = Option.none := by
  unfold remove_step
  by_cases hmem : (c, p) ∈ s2.subs
  · simp only [if_pos hmem]
    refine ⟨fun hk => h.1 (List.mem_of_mem_erase hk), ?_⟩
    exact alookup_aremove_of_none _ _ _ h.2
  · simp only [if_neg hmem]; exact h

/-- Membership of a different key and Nodup survive every removal step. -/
theorem remove_step_other (c : String) (k : String × String)
    (s2 : SvcState) (p : String) (hne : k ≠ (c, p))
    (h : k ∈ s2.subs ∧ s2.subs.Nodup) :
    k ∈ (remove_step c s2 p).subs ∧ (remove_step c s2 p).subs.Nodup := by
  unfold remove_step
  by_cases hmem : (c, p) ∈ s2.subs
  · simp only [if_pos hmem]
    exact ⟨(List.mem_erase_of_ne hne).mpr h.1, h.2.erase _⟩
  · simp only [if_neg hmem]; exact h

/-- After the inner fold over the periods reaches p, the key (c, p) is out
of the active set and out of the bar-state map. -/
theorem inner_fold_removes (c p : String) :
    ∀ (periods : List String) (s : SvcState), p ∈ periods →
      (c, p) ∈ s.subs → s.subs.Nodup →
      (c, p) ∉ (periods.foldl (remove_step c) s).subs
        ∧ alookup (periods.foldl (remove_step c) s).bar_states (c, p)
            = Option.none := by
  intro periods
  induction periods with
  | nil => intro s hp; exact absurd hp (by simp)
  | cons p1 rest ih =>
    intro s hp hin hnd
    by_cases hpe : p = p1
    · subst hpe
      have hstep : (c, p) ∉ (remove_step c s p).subs
          ∧ alookup (remove_step c s p).bar_states (c, p) = Option.none := by
        unfold remove_step
        simp only [if_pos hin]
        exact ⟨hnd.not_mem_erase, alookup_aremove_self _ _⟩
      exact foldl_preserve (remove_step c)
        (fun a b h => remove_step_absence c (c, p) a b h) rest _ hstep
    · have hp' : p ∈ rest := by
        rcases List.mem_cons.mp hp with h | h
        · exact absurd h hpe
        · exact h
      have hother := remove_step_other c (c, p) s p1
        (by simp [hpe]) ⟨hin, hnd⟩
      exact ih (remove_step c s p1) hp' hother.1 hother.2

/-- The dedup fingerprint exactly as `_publish_payload` builds it
(`realtime_service.py` 539-542). -/
def fingerprint (mode : String) (payload : PyDict) : DKey :=
  let code := pyget payload "code"
  let period := pyget payload "period"
  let bar_ts := pyget payload "bar_end_ts"
  let is_closed := truthy (pyget payload "is_closed")
  if mode = "forming_and_close" then
    (code, period, bar_ts, Option.some (if is_closed then 1 else 0))
  else (code, period, bar_ts, Option.none)

/-- A payload whose fingerprint is already in the dedup set is suppressed:
publish changes nothing (no bus append, no counter, no state change). -/
theorem publish_suppressed (cfg : RtCfg) (st : SvcState) (payload : PyDict)
    (h : fingerprint cfg.mode payload ∈ st.dedup_set) :
    publish_payload cfg st payload = st := by
  have h' : (if cfg.mode = "forming_and_close" then
        (pyget payload "code", pyget payload "period",
         pyget payload "bar_end_ts",
         Option.some (if truthy (pyget payload "is_closed") then 1 else 0))
      else (pyget payload "code", pyget payload "period",
         pyget payload "bar_end_ts", Option.none)) ∈ st.dedup_set := h
  have hmark : is_dup_and_mark cfg.dedup_max st.dedup_set st.dedup_q
      (if cfg.mode = "forming_and_close" then
        (pyget payload "code", pyget payload "period",
         pyget payload "bar_end_ts",
         Option.some (if truthy (pyget payload "is_closed") then 1 else 0))
      else (pyget payload "code", pyget payload "period",
         pyget payload "bar_end_ts", Option.none)) =
      (true, st.dedup_set, st.dedup_q) := by
    unfold is_dup_and_mark
    rw [if_pos h']
  simp only [publish_payload]
  split
  · rfl
  · split
    · rfl
    · rw [hmark]

/-- remove_subscription touches only the active set and the bar states. -/
theorem remove_subscription_frame (st : SvcState) (codes periods : List String) :
    (remove_subscription st codes periods).dedup_set = st.dedup_set
    ∧ (remove_subscription st codes periods).dedup_q = st.dedup_q
    ∧ (remove_subscription st codes periods).last_pub_ts = st.last_pub_ts
    ∧ (remove_subscription st codes periods).clock = st.clock
    ∧ (remove_subscription st codes periods).out_bus = st.out_bus := by
  rw [remove_subscription_eq]
  refine foldl_preserve (P := fun s =>
    s.dedup_set = st.dedup_set ∧ s.dedup_q = st.dedup_q
      ∧ s.last_pub_ts = st.last_pub_ts ∧ s.clock = st.clock
      ∧ s.out_bus = st.out_bus) _ ?_ codes st ⟨rfl, rfl, rfl, rfl, rfl⟩
  intro a c ha
  refine foldl_preserve (P := fun s =>
    s.dedup_set = st.dedup_set ∧ s.dedup_q = st.dedup_q
      ∧ s.last_pub_ts = st.last_pub_ts ∧ s.clock = st.clock
      ∧ s.out_bus = st.out_bus) _ ?_ periods a ha
  intro a2 p ha2
  unfold remove_step
  split
  · exact ha2
  · exact ha2

/-- add_subscription touches only the active set. -/
theorem add_subscription_frame (st : SvcState) (codes periods : List String) :
    (add_subscription st codes periods).dedup_set = st.dedup_set
    ∧ (add_subscription st codes periods).dedup_q = st.dedup_q
    ∧ (add_subscription st codes periods).bar_states = st.bar_states
    ∧ (add_subscription st codes periods).last_pub_ts = st.last_pub_ts
    ∧ (add_subscription st codes periods).clock = st.clock
    ∧ (add_subscription st codes periods).out_bus = st.out_bus := by
  unfold add_subscription
  refine foldl_preserve (P := fun s =>
    s.dedup_set = st.dedup_set ∧ s.dedup_q = st.dedup_q
      ∧ s.bar_states = st.bar_states ∧ s.last_pub_ts = st.last_pub_ts
      ∧ s.clock = st.clock ∧ s.out_bus = st.out_bus) _ ?_ codes st
    ⟨rfl, rfl, rfl, rfl, rfl, rfl⟩
  intro a c ha
  refine foldl_preserve (P := fun s =>
    s.dedup_set = st.dedup_set ∧ s.dedup_q = st.dedup_q
      ∧ s.bar_states = st.bar_states ∧ s.last_pub_ts = st.last_pub_ts
      ∧ s.clock = st.clock ∧ s.out_bus = st.out_bus) _ ?_ periods a ha
  intro a2 p ha2
  split
  · exact ha2
  · exact ha2

/-- After the outer fold over the codes reaches c, the key (c, p) with p in
the periods list is fully removed. -/
theorem outer_fold_removes (p : String) (periods : List String)
    (hp : p ∈ periods) :
    ∀ (codes : List String) (c : String) (st : SvcState), c ∈ codes →
      (c, p) ∈ st.subs → st.subs.Nodup →
      (c, p) ∉ (codes.foldl
          (fun s c0 => periods.foldl (remove_step c0) s) st).subs
        ∧ alookup (codes.foldl
            (fun s c0 => periods.foldl (remove_step c0) s) st).bar_states
            (c, p) = Option.none := by
  intro codes
  induction codes with
  | nil => intro c st hc; exact absurd hc (by simp)
  | cons c1 rest ih =>
    intro c st hc hin hnd
    by_cases hce : c = c1
    · subst hce
      have hstep := inner_fold_removes c p periods st hp hin hnd
      exact foldl_preserve
        (fun s c0 => periods.foldl (remove_step c0) s)
        (fun a b hab =>
          foldl_preserve (remove_step b)
            (fun a2 b2 h2 => remove_step_absence b (c, p) a2 b2 h2)
            periods a hab)
        rest _ hstep
    · have hc' : c ∈ rest := by
        rcases List.mem_cons.mp hc with h | h
        · exact absurd h hce
        · exact h
      have hkeep :
          (c, p) ∈ (periods.foldl (remove_step c1) st).subs
            ∧ (periods.foldl (remove_step c1) st).subs.Nodup :=
        foldl_preserve (remove_step c1)
          (fun a2 p2 h2 =>
            remove_step_other c1 (c, p) a2 p2 (by simp [hce]) h2)
          periods st ⟨hin, hnd⟩
      exact ih c (periods.foldl (remove_step c1) st) hc' hkeep.1 hkeep.2

/-- C10: removing an active key drops it from the active set and deletes its
bar state, but leaves the dedup LRU (set and queue) and the last-publish
table untouched; hence after any re-add of subscriptions, a bar whose
mode-dependent fingerprint is still cached in the LRU is suppressed — the
publish is a no-op and the bar is never re-published. -/
theorem C10_remove_keeps_dedup (st : SvcState) (codes periods : List String)
    (c p : String) (hnd : st.subs.Nodup) (hc : c ∈ codes) (hp : p ∈ periods)
    (hactive : (c, p) ∈ st.subs) :
    ((c, p) ∉ (remove_subscription st codes periods).subs
      ∧ alookup (remove_subscription st codes periods).bar_states (c, p)
          = Option.none)
    ∧ ((remove_subscription st codes periods).dedup_set = st.dedup_set
        ∧ (remove_subscription st codes periods).dedup_q = st.dedup_q
        ∧ (remove_subscription st codes periods).last_pub_ts = st.last_pub_ts)
    ∧ (∀ (codes2 periods2 : List String) (cfg : RtCfg) (payload : PyDict),
        fingerprint cfg.mode payload ∈ st.dedup_set →
        publish_payload cfg
          (add_subscription (remove_subscription st codes periods)
            codes2 periods2) payload
          = add_subscription (remove_subscription st codes periods)
              codes2 periods2) := by
  refine ⟨?_, ⟨(remove_subscription_frame st codes periods).1,
      (remove_subscription_frame st codes periods).2.1,
      (remove_subscription_frame st codes periods).2.2.1⟩, ?_⟩
  · rw [remove_subscription_eq]
    exact outer_fold_removes p periods hp codes c st hc hactive hnd
  · intro codes2 periods2 cfg payload hfp
    refine publish_suppressed cfg _ payload ?_
    rw [(add_subscription_frame (remove_subscription st codes periods)
      codes2 periods2).1,
      (remove_subscription_frame st codes periods).1]
    exact hfp

/-- Close-only fingerprint of the witness bar. -/
def c10_fp : DKey :=
  (PyVal.str "510050.SH", PyVal.str "1m",
   PyVal.str "2025-09-17T09:31:00+08:00", Option.none)

/-- The witness bar payload. -/
def c10_payload : PyDict :=
  [("code", PyVal.str "510050.SH"), ("period", PyVal.str "1m"),
   ("bar_end_ts", PyVal.str "2025-09-17T09:31:00+08:00"),
   ("is_closed", PyVal.bool true)]

/-- A service state with one active key whose bar was already published
(its fingerprint sits in the dedup LRU). -/
def c10_st : SvcState :=
  { subs := [("510050.SH", "1m")]
    bar_states :=
      [(("510050.SH", "1m"),
        ⟨Option.some c10_payload, Option.some 100, Option.none⟩)]
    dedup_set := [c10_fp]
    dedup_q := [c10_fp]
    last_pub_ts := [((PyVal.str "510050.SH", PyVal.str "1m"), 0)]
    clock := 1
    out_bus := [] }

/-- Witness for C10 at the concrete state: remove, re-add, then the cached
bar is suppressed. -/
theorem C10_witness :
    (("510050.SH", "1m")
        ∉ (remove_subscription c10_st ["510050.SH"] ["1m"]).subs
      ∧ alookup (remove_subscription c10_st ["510050.SH"] ["1m"]).bar_states
          ("510050.SH", "1m") = Option.none)
    ∧ ((remove_subscription c10_st ["510050.SH"] ["1m"]).dedup_set
          = c10_st.dedup_set
        ∧ (remove_subscription c10_st ["510050.SH"] ["1m"]).dedup_q
            = c10_st.dedup_q
        ∧ (remove_subscription c10_st ["510050.SH"] ["1m"]).last_pub_ts
            = c10_st.last_pub_ts)
    ∧ publish_payload { mode := "close_only" }
        (add_subscription (remove_subscription c10_st ["510050.SH"] ["1m"])
          ["510050.SH"] ["1m"]) c10_payload
        = add_subscription (remove_subscription c10_st ["510050.SH"] ["1m"])
            ["510050.SH"] ["1m"] := by
  have h := C10_remove_keeps_dedup c10_st ["510050.SH"] ["1m"]
    "510050.SH" "1m" (by decide) (by decide) (by decide) (by decide)
  exact ⟨h.1, h.2.1,
    h.2.2 ["510050.SH"] ["1m"] { mode := "close_only" } c10_payload (by decide)⟩

/-! ## Subscribe rollback (claim C9) -/

/-- Appending a fresh binding is found by lookup. -/
theorem alookup_append_fresh {α β : Type} [DecidableEq α]
    (l : List (α × β)) (k : α) (v : β)
    (h : alookup l k = Option.none) :
    alookup (l ++ [(k, v)]) k = Option.some v := by
  induction l with
  | nil => simp [alookup]
  | cons kv rest ih =>
    obtain ⟨k0, v0⟩ := kv
    by_cases hk : k0 = k
    · subst hk; simp [alookup] at h
    · simp only [alookup, List.cons_append, if_neg hk] at h ⊢
      exact ih h

/-- aset on a missing key appends. -/
theorem aset_of_none {α β : Type} [DecidableEq α]
    (l : List (α × β)) (k : α) (v : β)
    (h : alookup l k = Option.none) :
    aset l k v = l ++ [(k, v)] := by
  induction l with
  | nil => simp [aset]
  | cons kv rest ih =>
    obtain ⟨k0, v0⟩ := kv
    by_cases hk : k0 = k
    · subst hk; simp [alookup] at h
    · simp only [alookup, if_neg hk] at h
      simp only [aset, if_neg hk, List.cons_append]
      rw [ih h]

/-- aset writing back the stored value is the identity. -/
theorem aset_of_some {α β : Type} [DecidableEq α]
    (l : List (α × β)) (k : α) (v : β)
    (h : alookup l k = Option.some v) :
    aset l k v = l := by
  induction l with
  | nil => simp [alookup] at h
  | cons kv rest ih =>
    obtain ⟨k0, v0⟩ := kv
    by_cases hk : k0 = k
    · subst hk
      have h0 : v0 = v := by simpa [alookup] using h
      simp [aset, h0]
    · simp only [alookup, if_neg hk] at h
      simp only [aset, if_neg hk]
      rw [ih h]

/-- Lookup after aset of the same key. -/
theorem alookup_aset_self {α β : Type} [DecidableEq α]
    (l : List (α × β)) (k : α) (v : β) :
    alookup (aset l k v) k = Option.some v := by
  induction l with
  | nil => simp [aset, alookup]
  | cons kv rest ih =>
    obtain ⟨k0, v0⟩ := kv
    by_cases hk : k0 = k
    · subst hk; simp [aset, alookup]
    · simp only [aset, if_neg hk, alookup, if_neg hk]
      exact ih

/-- Writing twice keeps only the second value. -/
theorem aset_aset {α β : Type} [DecidableEq α]
    (l : List (α × β)) (k : α) (v w : β) :
    aset (aset l k v) k w = aset l k w := by
  induction l with
  | nil => simp [aset]
  | cons kv rest ih =>
    obtain ⟨k0, v0⟩ := kv
    by_cases hk : k0 = k
    · subst hk; simp [aset]
    · simp only [aset, if_neg hk]
      rw [ih]

/-- Removing a freshly appended binding restores the list. -/
theorem aremove_append_fresh {α β : Type} [DecidableEq α]
    (l : List (α × β)) (k : α) (v : β)
    (h : alookup l k = Option.none) :
    aremove (l ++ [(k, v)]) k = l := by
  unfold aremove
  rw [List.filter_append]
  have h1 : l.filter (fun kv => kv.1 ≠ k) = l := by
    refine List.filter_eq_self.mpr ?_
    intro kv hkv
    rw [alookup_eq_none_iff] at h
    simp only [ne_eq, decide_eq_true_eq]
    intro hk
    exact h (List.mem_map.mpr ⟨kv, hkv, hk⟩)
  rw [h1]
  simp

/-- Erasing a freshly appended element restores the list. -/
theorem erase_append_fresh {α : Type} [DecidableEq α]
    (l : List α) (x : α) (h : x ∉ l) :
    (l ++ [x]).erase x = l := by
  rw [List.erase_append_right _ h, List.erase_cons_head, List.append_nil]

/-- Deleting a freshly saved sub_id restores the registry exactly, provided
the sub_id is genuinely fresh and the stored strategy sets are well formed
(no Redis set is empty and none already holds the sub_id). -/
theorem registry_delete_save (reg : RegState) (sub_id : String)
    (spec : SubSpec)
    (h1 : sub_id ∉ reg.subs_set)
    (h2 : alookup reg.sub_hash sub_id = Option.none)
    (h3 : ∀ k l, alookup reg.strat_subs k = Option.some l →
      sub_id ∉ l ∧ l ≠ []) :
    registry_delete (registry_save reg sub_id spec) sub_id = reg := by
  have henc : encode_mapping spec ≠ [] := by simp [encode_mapping]
  have hsid : alookup (encode_mapping spec) "strategy_id"
      = Option.some spec.strategy_id := rfl
  have hstrat : strat_srem
      (strat_sadd reg.strat_subs spec.strategy_id sub_id)
      spec.strategy_id sub_id = reg.strat_subs := by
    cases hlk : alookup reg.strat_subs spec.strategy_id with
    | none =>
      simp only [strat_sadd, strat_srem, hlk]
      rw [alookup_append_fresh _ _ _ hlk]
      simp only [List.erase_cons_head, if_pos rfl]
      exact aremove_append_fresh _ _ _ hlk
    | some l0 =>
      have hfresh := h3 spec.strategy_id l0 hlk
      simp only [strat_sadd, strat_srem, hlk]
      rw [show sadd l0 sub_id = l0 ++ [sub_id] from by
        unfold sadd; rw [if_neg hfresh.1]]
      rw [alookup_aset_self]
      simp only [erase_append_fresh _ _ hfresh.1, if_neg hfresh.2]
      rw [aset_aset]
      exact aset_of_some _ _ _ hlk
  have hsadd2 : sadd reg.subs_set sub_id = reg.subs_set ++ [sub_id] := by
    unfold sadd; rw [if_neg h1]
  unfold registry_save registry_delete
  simp only [aset_of_none _ _ _ h2, alookup_append_fresh _ _ _ h2,
    if_pos henc, hsid, hstrat, hsadd2]
  rw [aremove_append_fresh _ _ _ h2, erase_append_fresh _ _ h1]

/-- C9: for an allowed strategy with non-empty code and period lists and a
fresh generated sub_id, the subscribe handler behaves as specified: when the
engine raises after the registry write, the just-created entry is rolled
back (the registry is exactly as before, so the sub_id is not persisted)
and the ACK is ok=false with error subscribe failed plus the message; when
the engine succeeds, the ACK is ok=true, action=subscribe and carries the
sub_id, cleaned codes and periods, mode and topic. -/
theorem C9_subscribe_rollback_and_ack (allow : List String) (reg : RegState)
    (sid_raw : String) (codes_raw periods_raw : List String)
    (mode topic : String) (preload_days : Int) (sub_id : String) (now : Int)
    (hsid : ¬ py_strip sid_raw = "")
    (hallow : allow = [] ∨ py_strip sid_raw ∈ allow)
    (hcodes : ¬ (codes_raw.map py_strip).filter (fun s => s ≠ "") = [])
    (hperiods :
      ¬ (periods_raw.map py_strip).filter (fun s => s ≠ "") = [])
    (h1 : sub_id ∉ reg.subs_set)
    (h2 : alookup reg.sub_hash sub_id = Option.none)
    (h3 : ∀ k l, alookup reg.strat_subs k = Option.some l →
      sub_id ∉ l ∧ l ≠ []) :
    (∀ msg, handle_subscribe allow reg sid_raw codes_raw periods_raw mode
        topic preload_days sub_id now (Except.error msg) =
      (reg, { ok := false
              error := Option.some ("subscribe failed: " ++ msg) }))
    ∧ handle_subscribe allow reg sid_raw codes_raw periods_raw mode topic
        preload_days sub_id now (Except.ok ()) =
      (registry_save reg sub_id
        ⟨py_strip sid_raw,
         (codes_raw.map py_strip).filter (fun s => s ≠ ""),
         (periods_raw.map py_strip).filter (fun s => s ≠ ""),
         mode, preload_days, topic, now⟩,
       { ok := true, action := Option.some "subscribe"
         sub_id := Option.some sub_id
         codes := Option.some
           ((codes_raw.map py_strip).filter (fun s => s ≠ ""))
         periods := Option.some
           ((periods_raw.map py_strip).filter (fun s => s ≠ ""))
         mode := Option.some mode, topic := Option.some topic }) := by
  have hgate : ¬ (py_strip sid_raw = ""
      ∨ (allow ≠ [] ∧ py_strip sid_raw ∉ allow)) := by
    rcases hallow with h | h
    · intro hc
      rcases hc with hc | hc
      · exact hsid hc
      · exact hc.1 h
    · intro hc
      rcases hc with hc | hc
      · exact hsid hc
      · exact hc.2 h
  have hgate2 : ¬ ((codes_raw.map py_strip).filter
        (fun s => s ≠ "") = []
      ∨ (periods_raw.map py_strip).filter (fun s => s ≠ "") = []) := by
    intro hc
    rcases hc with hc | hc
    · exact hcodes hc
    · exact hperiods hc
  constructor
  · intro msg
    simp only [handle_subscribe, if_neg hgate, if_neg hgate2]
    rw [registry_delete_save reg sub_id _ h1 h2 h3]
  · simp only [handle_subscribe, if_neg hgate, if_neg hgate2]

/-- Witness for C9 at a concrete command against the empty registry. -/
theorem C9_witness :
    handle_subscribe [] {} "demo" ["518880.SH"] ["1m"] "close_only"
        "xt:topic:bar" 0 "sub-20250917-093000-ab12cd34" 1758072660
        (Except.error "preload failed") =
      ({} , { ok := false
              error := Option.some "subscribe failed: preload failed" }) := by
  have h := C9_subscribe_rollback_and_ack [] {} "demo" ["518880.SH"] ["1m"]
    "close_only" "xt:topic:bar" 0 "sub-20250917-093000-ab12cd34" 1758072660
    (by decide) (Or.inl rfl) (by decide) (by decide)
    (by simp) (rfl) (by intro k l hkl; simp [alookup] at hkl)
  exact h.1 "preload failed"

/-! ## Timestamp normalization shape and row dropping (claim C7) -/

/-- Every string produced by the civil renderer is an ISO string with the T
separator and the literal +08:00 suffix. -/
theorem iso_of_civil_shape (y m d hh mi ss : Int) :
    ∃ p1 p2 : String, iso_of_civil y m d hh mi ss = p1 ++ "T" ++ p2 ++ "+08:00" :=
  ⟨date_part y m d, time_part hh mi ss, rfl⟩

/-- Every success of the epoch renderer has the +08:00 ISO shape. -/
theorem cn_iso_of_epoch_shape (e : Int) (s : String)
    (h : cn_iso_of_epoch e = Option.some s) :
    ∃ p1 p2 : String, s = p1 ++ "T" ++ p2 ++ "+08:00" := by
  simp only [cn_iso_of_epoch] at h
  split at h
  · exact absurd h (by simp)
  · split at h
    · exact absurd h (by simp)
    · injection h with h1
      exact ⟨_, _, by rw [← h1]; rfl⟩

/-- Every success of strptime-14 rendering has the +08:00 ISO shape. -/
theorem strptime14_iso_shape (cs : List Char) (s : String)
    (h : strptime14_iso cs = Option.some s) :
    ∃ p1 p2 : String, s = p1 ++ "T" ++ p2 ++ "+08:00" := by
  simp only [strptime14_iso] at h
  split at h
  · split at h
    · injection h with h1
      exact ⟨_, _, h1.symm⟩
    · exact absurd h (by simp)
  · exact absurd h (by simp)

/-- Every success of strptime-8 rendering has the +08:00 ISO shape. -/
theorem strptime8_iso_shape (cs : List Char) (s : String)
    (h : strptime8_iso cs = Option.some s) :
    ∃ p1 p2 : String, s = p1 ++ "T" ++ p2 ++ "+08:00" := by
  simp only [strptime8_iso] at h
  split at h
  · split at h
    · injection h with h1
      exact ⟨_, _, h1.symm⟩
    · exact absurd h (by simp)
  · exact absurd h (by simp)

/-- Every success of the ISO branch has the +08:00 ISO shape. -/
theorem normalize_iso_branch_shape (cs : List Char) (s : String)
    (h : normalize_iso_branch cs = Option.some s) :
    ∃ p1 p2 : String, s = p1 ++ "T" ++ p2 ++ "+08:00" := by
  simp only [normalize_iso_branch] at h
  split at h
  · exact absurd h (by simp)
  · exact cn_iso_of_epoch_shape _ _ h

/-- Every successful normalization has the +08:00 ISO shape. -/
theorem normalize_some_shape (raw : PyVal) (s : String)
    (h : normalize_bar_end_ts raw = Option.some s) :
    ∃ p1 p2 : String, s = p1 ++ "T" ++ p2 ++ "+08:00" := by
  cases raw with
  | none => exact absurd h (by simp [normalize_bar_end_ts])
  | bool b =>
    simp only [normalize_bar_end_ts, normalize_num_branch] at h
    exact cn_iso_of_epoch_shape _ _ h
  | num q =>
    simp only [normalize_bar_end_ts, normalize_num_branch] at h
    exact cn_iso_of_epoch_shape _ _ h
  | str s0 =>
    simp only [normalize_bar_end_ts] at h
    split at h
    · exact absurd h (by simp)
    · split at h
      · exact strptime14_iso_shape _ _ h
      · split at h
        · exact strptime8_iso_shape _ _ h
        · exact normalize_iso_branch_shape _ _ h

/-- C7: every raw time value either fails normalization, or normalizes to an
Asia/Shanghai ISO string — a string with a T separator ending in the literal
+08:00; and a row whose time field does not normalize is discarded by the
dispatcher without touching the per-key state or emitting anything: the run
over a batch containing the bad row equals the run over the batch without
it. -/
theorem C7_normalize_and_drop :
    (∀ raw : PyVal,
      normalize_bar_end_ts raw = Option.none
      ∨ ∃ s, normalize_bar_end_ts raw = Option.some s
          ∧ ∃ p1 p2 : String, s = p1 ++ "T" ++ p2 ++ "+08:00")
    ∧ (∀ (cfg : RtCfg) (st : SvcState) (period code : String)
        (rows1 rows2 : List PyDict) (row : PyDict),
        (∀ clock, normalize_row clock code period row = Option.none) →
        on_datas cfg st period [(code, rows1 ++ row :: rows2)]
          = on_datas cfg st period [(code, rows1 ++ rows2)]) := by
  constructor
  · intro raw
    cases h : normalize_bar_end_ts raw with
    | none => exact Or.inl rfl
    | some s => exact Or.inr ⟨s, rfl, normalize_some_shape raw s h⟩
  · intro cfg st period code rows1 rows2 row hrow
    simp only [on_datas, List.foldl_cons, List.foldl_nil]
    have hfm : (rows1 ++ row :: rows2).filterMap
        (normalize_row st.clock code period)
        = (rows1 ++ rows2).filterMap (normalize_row st.clock code period) := by
      rw [List.filterMap_append, List.filterMap_append,
        List.filterMap_cons_none (hrow st.clock)]
    by_cases hnil : rows1 ++ rows2 = []
    · obtain ⟨hr1, hr2⟩ := List.append_eq_nil.mp hnil
      subst hr1; subst hr2
      simp only [List.nil_append]
      rw [if_neg (show ¬ ([row] : List PyDict) = [] by simp)]
      rw [show (([row] : List PyDict).filterMap
          (normalize_row st.clock code period)) = [] from by
        simp [List.filterMap_cons_none (hrow st.clock)]]
      simp
    · have hne : ¬ rows1 ++ row :: rows2 = [] := by simp
      rw [if_neg hne, if_neg hnil, hfm]

/-- A row whose time field is unparseable. -/
def c7_bad_row : PyDict := [("time", PyVal.str "not a time")]

/-- Witness for C7: a batch with the unparseable row appended runs exactly
like the batch without it. -/
theorem C7_witness :
    on_datas { mode := "close_only" } init_svc "1m"
      [("510050.SH", [mk_row "2025-09-17 09:31:00" 2515] ++ c7_bad_row :: [])]
      = on_datas { mode := "close_only" } init_svc "1m"
        [("510050.SH", [mk_row "2025-09-17 09:31:00" 2515] ++ [])] :=
  C7_normalize_and_drop.2 { mode := "close_only" } init_svc "1m" "510050.SH"
    [mk_row "2025-09-17 09:31:00" 2515] [] c7_bad_row (fun _ => rfl)

/-! ## Dictionary and publish-path lemmas -/

/-- Setting a key makes it readable. -/
theorem dget_dset_self (d : PyDict) (k : String) (v : PyVal) :
    dget (dset d k v) k = Option.some v := by
  induction d with
  | nil => simp [dset, dget]
  | cons kv rest ih =>
    obtain ⟨k0, v0⟩ := kv
    by_cases hk : k0 = k
    · subst hk; simp [dset, dget]
    · simp only [dset, if_neg hk, dget, if_neg hk]
      exact ih

/-- Setting one key does not affect reads of another. -/
theorem dget_dset_ne (d : PyDict) (k k2 : String) (v : PyVal)
    (h : k ≠ k2) : dget (dset d k v) k2 = dget d k2 := by
  induction d with
  | nil => simp [dset, dget, h]
  | cons kv rest ih =>
    obtain ⟨k0, v0⟩ := kv
    by_cases hk : k0 = k
    · subst hk
      simp only [dset, if_pos rfl, dget, if_neg h]
    · simp only [dset, if_neg hk, dget]
      by_cases hk2 : k0 = k2
      · simp [hk2]
      · simp only [if_neg hk2]
        exact ih

/-- setdefault of one key does not affect reads of another. -/
theorem dget_dsetdefault_ne (d : PyDict) (k k2 : String) (v : PyVal)
    (h : k ≠ k2) : dget (dsetdefault d k v) k2 = dget d k2 := by
  unfold dsetdefault
  cases dget d k with
  | none =>
    induction d with
    | nil => simp [dget, h]
    | cons kv rest ih =>
      obtain ⟨k0, v0⟩ := kv
      by_cases hk2 : k0 = k2
      · simp [dget, hk2]
      · simp only [List.cons_append, dget, if_neg hk2]
        exact ih
  | some _ => rfl

/-- The publish path never touches the bar states. -/
theorem publish_payload_bar_states (cfg : RtCfg) (st : SvcState)
    (payload : PyDict) :
    (publish_payload cfg st payload).bar_states = st.bar_states := by
  simp only [publish_payload]
  split
  · rfl
  · split
    · rfl
    · split
      · rfl
      · rfl

/-- A fold of publishes never touches the bar states. -/
theorem publish_fold_bar_states (cfg : RtCfg) (ems : List (Int × PyDict)) :
    ∀ st : SvcState,
      (ems.foldl (fun s ep => publish_payload cfg s ep.2) st).bar_states
        = st.bar_states := by
  induction ems with
  | nil => intro st; rfl
  | cons e rest ih =>
    intro st
    rw [List.foldl_cons, ih, publish_payload_bar_states]

/-- Everything the publish path appends to the bus is an enrichment of its
input payload (source defaulted, recv_ts written). -/
theorem publish_payload_out_bus (cfg : RtCfg) (st : SvcState)
    (payload : PyDict) (q : PyDict)
    (hq : q ∈ (publish_payload cfg st payload).out_bus) :
    q ∈ st.out_bus
    ∨ q = dset (dsetdefault payload "source" (PyVal.str "qmt"))
        "recv_ts" (PyVal.str (toString st.clock)) := by
  simp only [publish_payload] at hq
  split at hq
  · exact Or.inl hq
  · split at hq
    · exact Or.inl hq
    · split at hq
      · exact Or.inl hq
      · simp only [List.mem_append, List.mem_singleton] at hq
        rcases hq with hq | hq
        · exact Or.inl hq
        · exact Or.inr hq

/-! ## No realtime payload carries bar_open_ts (claim C6, amended part) -/

/-- The payload has no bar_open_ts binding. -/
def no_open (d : PyDict) : Prop := dget d "bar_open_ts" = Option.none

/-- dset of another key preserves the absence. -/
theorem no_open_dset (d : PyDict) (k : String) (v : PyVal)
    (hk : k ≠ "bar_open_ts") (hd : no_open d) : no_open (dset d k v) := by
  unfold no_open
  rw [dget_dset_ne _ _ _ _ hk]
  exact hd

/-- dsetdefault of another key preserves the absence. -/
theorem no_open_dsetdefault (d : PyDict) (k : String) (v : PyVal)
    (hk : k ≠ "bar_open_ts") (hd : no_open d) : no_open (dsetdefault d k v) := by
  unfold no_open
  rw [dget_dsetdefault_ne _ _ _ _ hk]
  exact hd

/-- Lookup into an updated association list: hit the new binding or fall
through to the old list. -/
theorem alookup_aset_cases {α β : Type} [DecidableEq α]
    (l : List (α × β)) (k k2 : α) (v : β) (w : β)
    (h : alookup (aset l k v) k2 = Option.some w) :
    (k2 = k ∧ w = v) ∨ alookup l k2 = Option.some w := by
  induction l with
  | nil =>
    simp only [aset, alookup] at h
    split at h
    · next hk => injection h with h1; exact Or.inl ⟨hk.symm, h1.symm⟩
    · exact absurd h (by simp)
  | cons kv rest ih =>
    obtain ⟨k0, v0⟩ := kv
    by_cases hk : k0 = k
    · subst hk
      simp only [aset, if_pos rfl, alookup] at h ⊢
      split at h
      · next hk2 => injection h with h1; exact Or.inl ⟨hk2.symm, h1.symm⟩
      · next hk2 => rw [if_neg hk2]; exact Or.inr h
    · simp only [aset, if_neg hk, alookup] at h ⊢
      split at h
      · next hk2 => rw [if_pos hk2]; exact Or.inr h
      · next hk2 => rw [if_neg hk2]; exact ih h

/-- Lookup into a list with a fresh binding appended. -/
theorem alookup_append_single_cases {α β : Type} [DecidableEq α]
    (l : List (α × β)) (k k2 : α) (v : β) (w : β)
    (h : alookup (l ++ [(k, v)]) k2 = Option.some w) :
    (k2 = k ∧ w = v) ∨ alookup l k2 = Option.some w := by
  induction l with
  | nil =>
    simp only [List.nil_append, alookup] at h
    split at h
    · next hk => injection h with h1; exact Or.inl ⟨hk.symm, h1.symm⟩
    · exact absurd h (by simp)
  | cons kv rest ih =>
    obtain ⟨k0, v0⟩ := kv
    simp only [List.cons_append, alookup] at h ⊢
    split at h
    · next hk2 => rw [if_pos hk2]; exact Or.inr h
    · next hk2 => rw [if_neg hk2]; exact ih h

/-- Invariant: no payload on the bus and no cached forming payload carries
bar_open_ts. -/
def state_no_open (st : SvcState) : Prop :=
  (∀ p ∈ st.out_bus, no_open p)
  ∧ (∀ k bs, alookup st.bar_states k = Option.some bs →
      ∀ p, bs.current_payload = Option.some p → no_open p)

/-- publish_payload preserves the invariant for a clean payload. -/
theorem publish_no_open (cfg : RtCfg) (st : SvcState) (payload : PyDict)
    (hst : state_no_open st) (hp : no_open payload) :
    state_no_open (publish_payload cfg st payload) := by
  constructor
  · intro q hq
    rcases publish_payload_out_bus cfg st payload q hq with h | h
    · exact hst.1 q h
    · rw [h]
      exact no_open_dset _ _ _ (by decide)
        (no_open_dsetdefault _ _ _ (by decide) hp)
  · intro k bs hbs
    rw [publish_payload_bar_states] at hbs
    exact hst.2 k bs hbs

/-- A fold of publishes over clean emissions preserves the invariant. -/
theorem publish_fold_no_open (cfg : RtCfg) (ems : List (Int × PyDict)) :
    ∀ st : SvcState, state_no_open st → (∀ ep ∈ ems, no_open ep.2) →
      state_no_open
        (ems.foldl (fun s ep => publish_payload cfg s ep.2) st) := by
  induction ems with
  | nil => intro st h _; exact h
  | cons e rest ih =>
    intro st hst hems
    rw [List.foldl_cons]
    exact ih _ (publish_no_open cfg st e.2 hst (hems e (by simp)))
      (fun ep hep => hems ep (by simp [hep]))

/-- The bar state machine preserves the invariant for a clean payload, and
every emission it queues is clean. -/
theorem handle_no_open (cfg : RtCfg) (st : SvcState) (code period : String)
    (bar_dt : Int) (payload : PyDict)
    (hst : state_no_open st) (hp : no_open payload) :
    state_no_open (handle_bar_update cfg st code period bar_dt payload).1
    ∧ ∀ ep ∈ (handle_bar_update cfg st code period bar_dt payload).2,
        no_open ep.2 := by
  have hstore : no_open
      (dset (dset (dset payload "code" (PyVal.str code))
        "period" (PyVal.str period)) "is_closed" (PyVal.bool false)) :=
    no_open_dset _ _ _ (by decide)
      (no_open_dset _ _ _ (by decide) (no_open_dset _ _ _ (by decide) hp))
  have hforming : ∀ ep ∈ (if cfg.mode = "forming_and_close" then
      [(bar_dt, dset (dset (dset (dset payload "code" (PyVal.str code))
        "period" (PyVal.str period)) "is_closed" (PyVal.bool false))
        "is_closed" (PyVal.bool false))]
      else ([] : List (Int × PyDict))), no_open ep.2 := by
    intro ep hep
    split at hep
    · simp only [List.mem_singleton] at hep
      rw [hep]
      exact no_open_dset _ _ _ (by decide) hstore
    · exact absurd hep (by simp)
  have hmap : ∀ bs' : BarSt,
      (∀ p, bs'.current_payload = Option.some p → no_open p) →
      ∀ k bs2, alookup (aset st.bar_states (code, period) bs') k
          = Option.some bs2 →
        ∀ p, bs2.current_payload = Option.some p → no_open p := by
    intro bs' hbs' k bs2 hbs p hpp
    rcases alookup_aset_cases _ _ _ _ _ hbs with ⟨_, hbs2⟩ | hbs2
    · rw [hbs2] at hpp
      exact hbs' p hpp
    · exact hst.2 k bs2 hbs2 p hpp
  cases hlk : alookup st.bar_states (code, period) with
  | none =>
    simp only [handle_bar_update, hlk]
    refine ⟨publish_fold_no_open cfg _ _ ⟨hst.1, ?_⟩ hforming, hforming⟩
    intro k bs hbs p hpp
    rcases alookup_append_single_cases _ _ _ _ _ hbs with ⟨_, hbs'⟩ | hbs'
    · rw [hbs'] at hpp
      injection hpp with h1
      rw [← h1]
      exact hstore
    · exact hst.2 k bs hbs' p hpp
  | some bs =>
    cases hcd : bs.current_dt with
    | none =>
      simp only [handle_bar_update, hlk, hcd]
      refine ⟨publish_fold_no_open cfg _ _ ⟨hst.1, ?_⟩ hforming, hforming⟩
      refine hmap _ ?_
      intro p hpp
      injection hpp with h1
      rw [← h1]
      exact hstore
    | some cur =>
      by_cases hlt : bar_dt < cur
      · simp only [handle_bar_update, hlk, hcd, if_pos hlt]
        exact ⟨hst, by intro ep hep; exact absurd hep (by simp)⟩
      · by_cases heq : bar_dt = cur
        · simp only [handle_bar_update, hlk, hcd, if_neg hlt, if_pos heq]
          refine ⟨publish_fold_no_open cfg _ _ ⟨hst.1, ?_⟩ hforming, hforming⟩
          refine hmap _ ?_
          intro p hpp
          injection hpp with h1
          rw [← h1]
          exact hstore
        · have hclean : ∀ p, bs.current_payload = Option.some p → no_open p :=
            fun p hpp => hst.2 _ bs hlk p hpp
          have hnewmap := hmap
            ⟨Option.some (dset (dset (dset payload "code" (PyVal.str code))
              "period" (PyVal.str period)) "is_closed" (PyVal.bool false)),
             Option.some bar_dt,
             match bs.current_payload with
             | Option.some p =>
               if p = [] then bs.last_published_dt else Option.some cur
             | Option.none => bs.last_published_dt⟩
            (by intro p hpp; injection hpp with h1; rw [← h1]; exact hstore)
          cases hcp : bs.current_payload with
          | none =>
            simp only [handle_bar_update, hlk, hcd, if_neg hlt, if_neg heq,
              hcp, List.nil_append]
            refine ⟨publish_fold_no_open cfg _ _ ⟨hst.1, ?_⟩ hforming, hforming⟩
            rw [hcp] at hnewmap
            exact hnewmap
          | some p0 =>
            by_cases hpe : p0 = []
            · simp only [handle_bar_update, hlk, hcd, if_neg hlt, if_neg heq,
                hcp, if_pos hpe, List.nil_append]
              refine ⟨publish_fold_no_open cfg _ _ ⟨hst.1, ?_⟩ hforming,
                hforming⟩
              rw [hcp] at hnewmap
              simp only [if_pos hpe] at hnewmap
              exact hnewmap
            · have hems : ∀ ep ∈ ((cur, dset p0 "is_closed" (PyVal.bool true))
                  :: (if cfg.mode = "forming_and_close" then
                  [(bar_dt, dset (dset (dset (dset payload "code"
                    (PyVal.str code)) "period" (PyVal.str period))
                    "is_closed" (PyVal.bool false))
                    "is_closed" (PyVal.bool false))]
                  else ([] : List (Int × PyDict)))), no_open ep.2 := by
                intro ep hep
                rcases List.mem_cons.mp hep with h | h
                · rw [h]
                  exact no_open_dset _ _ _ (by decide) (hclean p0 hcp)
                · exact hforming ep h
              simp only [handle_bar_update, hlk, hcd, if_neg hlt, if_neg heq,
                hcp, if_neg hpe, List.cons_append, List.nil_append]
              refine ⟨publish_fold_no_open cfg _ _ ⟨hst.1, ?_⟩ hems, hems⟩
              rw [hcp] at hnewmap
              simp only [if_neg hpe] at hnewmap
              exact hnewmap

/-- The payload literal built from a raw row has no bar_open_ts binding. -/
theorem build_payload_no_open (clock : Nat) (code period : String)
    (row : PyDict) (payload : PyDict)
    (h : build_payload_from_row clock code period row = Option.some payload) :
    no_open payload := by
  simp only [build_payload_from_row] at h
  split at h
  · exact absurd h (by simp)
  · injection h with h1
    rw [← h1]
    rfl

/-- A normalized row payload has no bar_open_ts binding. -/
theorem normalize_row_no_open (clock : Nat) (code period : String)
    (row : PyDict) (dt : Int) (p : PyDict)
    (h : normalize_row clock code period row = Option.some (dt, p)) :
    no_open p := by
  cases hb : build_payload_from_row clock code period row with
  | none => simp [normalize_row, hb] at h
  | some payload =>
    simp only [normalize_row, hb] at h
    cases hn : normalize_bar_end_ts (pyget payload "bar_end_ts") with
    | none => simp [hn] at h
    | some iso =>
      simp only [hn] at h
      cases hf : from_iso_epoch_cn iso.data with
      | none => simp [hf] at h
      | some e =>
        simp only [hf, Option.some.injEq, Prod.mk.injEq] at h
        rw [← h.2]
        exact no_open_dset _ _ _ (by decide)
          (build_payload_no_open clock code period row payload hb)

/-- Stable insertion only rearranges the elements. -/
theorem mem_insert_by_dt (x y : Int × PyDict) :
    ∀ l, y ∈ insert_by_dt x l → y = x ∨ y ∈ l := by
  intro l
  induction l with
  | nil => intro h; simp only [insert_by_dt, List.mem_singleton] at h; exact Or.inl h
  | cons z zs ih =>
    intro h
    simp only [insert_by_dt] at h
    split at h
    · rcases List.mem_cons.mp h with h1 | h1
      · exact Or.inr (by simp [h1])
      · rcases ih h1 with h2 | h2
        · exact Or.inl h2
        · exact Or.inr (by simp [h2])
    · rcases List.mem_cons.mp h with h1 | h1
      · exact Or.inl h1
      · exact Or.inr h1

/-- Sorting only rearranges the elements. -/
theorem mem_sort_by_dt (l : List (Int × PyDict)) (y : Int × PyDict)
    (h : y ∈ sort_by_dt l) : y ∈ l := by
  unfold sort_by_dt at h
  suffices haux : ∀ (l2 : List (Int × PyDict)) (acc : List (Int × PyDict)),
      y ∈ l2.foldl (fun a x => insert_by_dt x a) acc → y ∈ acc ∨ y ∈ l2 by
    rcases haux l [] h with h1 | h1
    · exact absurd h1 (by simp)
    · exact h1
  intro l2
  induction l2 with
  | nil => intro acc h2; exact Or.inl h2
  | cons z zs ih =>
    intro acc h2
    rw [List.foldl_cons] at h2
    rcases ih (insert_by_dt z acc) h2 with h3 | h3
    · rcases mem_insert_by_dt z y acc h3 with h4 | h4
      · exact Or.inr (by simp [h4])
      · exact Or.inl h4
    · exact Or.inr (by simp [h3])

/-- A predicate preserved by fold steps whose elements satisfy Q. -/
theorem foldl_preserve_mem {α β : Type} {P : α → Prop} {Q : β → Prop}
    (f : α → β → α) (hf : ∀ a b, P a → Q b → P (f a b)) :
    ∀ (l : List β) (a : α), P a → (∀ b ∈ l, Q b) → P (List.foldl f a l) := by
  intro l
  induction l with
  | nil => intro a h _; exact h
  | cons x xs ih =>
    intro a h hq
    exact ih (f a x) (hf a x h (hq x (by simp)))
      (fun b hb => hq b (by simp [hb]))

/-- The event dispatcher preserves the invariant. -/
theorem on_datas_no_open (cfg : RtCfg) (period : String)
    (datas : List (String × List PyDict)) (st : SvcState)
    (hst : state_no_open st) :
    state_no_open (on_datas cfg st period datas).1 := by
  unfold on_datas
  refine foldl_preserve (P := fun a : SvcState × List (Int × PyDict) =>
    state_no_open a.1) _ ?_ datas (st, []) hst
  intro a cr ha
  dsimp only
  split
  · exact ha
  · split
    · exact ha
    · refine foldl_preserve_mem
        (P := fun a2 : SvcState × List (Int × PyDict) => state_no_open a2.1)
        (Q := fun dp : Int × PyDict => no_open dp.2)
        _ ?_ _ a ha ?_
      · intro a2 dp ha2 hq
        exact (handle_no_open cfg a2.1 cr.1 period dp.1 dp.2 ha2 hq).1
      · intro dp hdp
        obtain ⟨row, _, hnr⟩ :=
          List.mem_filterMap.mp (mem_sort_by_dt _ _ hdp)
        exact normalize_row_no_open _ _ _ _ _ _ hnr

/-- Full runs preserve the invariant. -/
theorem run_batches_no_open (cfg : RtCfg)
    (batches : List (String × List (String × List PyDict)))
    (st : SvcState) (hst : state_no_open st) :
    state_no_open (run_batches cfg st batches).1 := by
  unfold run_batches
  refine foldl_preserve (P := fun a : SvcState × List (Int × PyDict) =>
    state_no_open a.1) _ ?_ batches (st, []) hst
  intro a b ha
  dsimp only
  exact on_datas_no_open cfg b.1 b.2 a.1 ha

/-- C6 amended: no realtime-published payload carries a bar_open_ts field at
all — from a fresh service, every payload any run puts on the bus reads
bar_open_ts as absent — while the history converter is the code path that
derives an open timestamp, as bar_end minus the period length (60 s for 1m,
3600 s for 1h, 86400 s for 1d). -/
theorem C6_amended_no_open_ts :
    (∀ (cfg : RtCfg)
        (batches : List (String × List (String × List PyDict))),
      ((run_batches cfg init_svc batches).1.out_bus.all
        (fun p => (dget p "bar_open_ts").isNone)) = true)
    ∧ (∀ e : Int,
        history_open_end "1m" e = Option.some (e - 60, e)
        ∧ history_open_end "1h" e = Option.some (e - 3600, e)
        ∧ history_open_end "1d" e = Option.some (e - 86400, e)) := by
  constructor
  · intro cfg batches
    have hrun := run_batches_no_open cfg batches init_svc
      ⟨by intro p hp; exact absurd hp (by simp [init_svc]),
       by intro k bs hbs; exact absurd hbs (by simp [init_svc, alookup])⟩
    refine List.all_eq_true.mpr ?_
    intro p hp
    have := hrun.1 p hp
    simp only [no_open] at this
    simp [this]
  · intro e
    exact ⟨rfl, rfl, rfl⟩

/-! ## Closed-bar monotonicity (claim C3) -/

/-- The closed-bar emissions of an emission list. -/
def closed_ems (l : List (Int × PyDict)) : List (Int × PyDict) :=
  l.filter (fun ep => decide (pyget ep.2 "is_closed" = PyVal.bool true))

/-- Reading back a freshly set key. -/
theorem pyget_dset_self (d : PyDict) (k : String) (v : PyVal) :
    pyget (dset d k v) k = v := by
  unfold pyget
  rw [dget_dset_self]
  rfl

/-- Reachable-state invariant at one key: a published watermark implies a
strictly later forming bar. -/
def key_inv (st : SvcState) (key : String × String) : Prop :=
  ∀ bs, alookup st.bar_states key = Option.some bs →
    ∀ l, bs.last_published_dt = Option.some l →
      ∃ d, bs.current_dt = Option.some d ∧ l < d

/-- The forming emissions hold no closed entry. -/
theorem closed_ems_forming (cfg : RtCfg) (bar_dt : Int) (store : PyDict) :
    closed_ems (if cfg.mode = "forming_and_close" then
      [(bar_dt, dset store "is_closed" (PyVal.bool false))]
      else ([] : List (Int × PyDict))) = [] := by
  split
  · simp [closed_ems, pyget_dset_self]
  · rfl

/-- One step of the bar state machine: the reachable-state invariant is
preserved; every closed emission is strictly later than the previous
watermark and becomes the new watermark; the watermark never decreases; and
at most one closed bar is emitted. -/
theorem handle_step_mono (cfg : RtCfg) (st : SvcState) (code period : String)
    (bar_dt : Int) (payload : PyDict)
    (hinv : key_inv st (code, period)) :
    key_inv (handle_bar_update cfg st code period bar_dt payload).1
        (code, period)
    ∧ (∀ ep ∈ (handle_bar_update cfg st code period bar_dt payload).2,
        pyget ep.2 "is_closed" = PyVal.bool true →
          (∀ bs l, alookup st.bar_states (code, period) = Option.some bs →
            bs.last_published_dt = Option.some l → l < ep.1)
          ∧ ∃ bs', alookup
              (handle_bar_update cfg st code period bar_dt payload).1.bar_states
              (code, period) = Option.some bs'
              ∧ bs'.last_published_dt = Option.some ep.1)
    ∧ (∀ bs l, alookup st.bar_states (code, period) = Option.some bs →
        bs.last_published_dt = Option.some l →
        ∃ bs' l', alookup
            (handle_bar_update cfg st code period bar_dt payload).1.bar_states
            (code, period) = Option.some bs'
            ∧ bs'.last_published_dt = Option.some l' ∧ l ≤ l')
    ∧ (closed_ems
        (handle_bar_update cfg st code period bar_dt payload).2).length ≤ 1 := by
  cases hlk : alookup st.bar_states (code, period) with
  | none =>
    simp only [handle_bar_update, hlk]
    refine ⟨?_, ?_, ?_, ?_⟩
    · intro bs2 hbs2 l hl
      rw [publish_fold_bar_states] at hbs2
      rcases alookup_append_single_cases _ _ _ _ _ hbs2 with ⟨_, hbs'⟩ | hbs'
      · rw [hbs'] at hl
        have hl2 : (Option.none : Option Int) = Option.some l := hl
        exact absurd hl2 (by simp)
      · rw [hlk] at hbs'
        exact absurd hbs' (by simp)
    · intro ep hep hcl
      split at hep
      · simp only [List.mem_singleton] at hep
        rw [hep] at hcl
        simp only [pyget_dset_self] at hcl
        exact absurd hcl (by simp)
      · exact absurd hep (by simp)
    · intro bs l hbs
      exact absurd hbs (by simp)
    · rw [closed_ems_forming]
      simp
  | some bs =>
    cases hcd : bs.current_dt with
    | none =>
      have hLnone : bs.last_published_dt = Option.none := by
        cases hL : bs.last_published_dt with
        | none => rfl
        | some l =>
          obtain ⟨d, hd, _⟩ := hinv bs hlk l hL
          rw [hcd] at hd
          exact absurd hd (by simp)
      simp only [handle_bar_update, hlk, hcd]
      refine ⟨?_, ?_, ?_, ?_⟩
      · intro bs2 hbs2 l hl
        rw [publish_fold_bar_states] at hbs2
        rcases alookup_aset_cases _ _ _ _ _ hbs2 with ⟨_, hbs'⟩ | hbs'
        · rw [hbs'] at hl
          have hl2 : bs.last_published_dt = Option.some l := hl
          rw [hLnone] at hl2
          exact absurd hl2 (by simp)
        · rw [hlk] at hbs'
          injection hbs' with hb
          rw [← hb, hLnone] at hl
          exact absurd hl (by simp)
      · intro ep hep hcl
        split at hep
        · simp only [List.mem_singleton] at hep
          rw [hep] at hcl
          simp only [pyget_dset_self] at hcl
          exact absurd hcl (by simp)
        · exact absurd hep (by simp)
      · intro bs2 l hbs2 hl
        injection hbs2 with hb
        rw [← hb, hLnone] at hl
        exact absurd hl (by simp)
      · rw [closed_ems_forming]
        simp
    | some cur =>
      by_cases hlt : bar_dt < cur
      · simp only [handle_bar_update, hlk, hcd, if_pos hlt]
        refine ⟨hinv, ?_, ?_, by simp [closed_ems]⟩
        · intro ep hep
          exact absurd hep (by simp)
        · intro bs2 l hbs2 hl
          injection hbs2 with hb
          exact ⟨bs, l, hlk, by rw [hb]; exact hl, le_refl l⟩
      · by_cases heq : bar_dt = cur
        · simp only [handle_bar_update, hlk, hcd, if_neg hlt, if_pos heq]
          refine ⟨?_, ?_, ?_, ?_⟩
          · intro bs2 hbs2 l hl
            rw [publish_fold_bar_states] at hbs2
            rcases alookup_aset_cases _ _ _ _ _ hbs2 with ⟨_, hbs'⟩ | hbs'
            · rw [hbs'] at hl ⊢
              have hl2 : bs.last_published_dt = Option.some l := hl
              obtain ⟨d, hd, hld⟩ := hinv bs hlk l hl2
              rw [hcd] at hd
              injection hd with hd2
              exact ⟨cur, rfl, by omega⟩
            · exact hinv bs2 hbs' l hl
          · intro ep hep hcl
            split at hep
            · simp only [List.mem_singleton] at hep
              rw [hep] at hcl
              simp only [pyget_dset_self] at hcl
              exact absurd hcl (by simp)
            · exact absurd hep (by simp)
          · intro bs2 l hbs2 hl
            injection hbs2 with hb
            refine ⟨⟨Option.some (dset (dset (dset payload "code"
                  (PyVal.str code)) "period" (PyVal.str period))
                  "is_closed" (PyVal.bool false)),
                Option.some cur, bs.last_published_dt⟩, l, ?_, ?_, le_refl l⟩
            · rw [publish_fold_bar_states]
              exact alookup_aset_self _ _ _
            · show bs.last_published_dt = Option.some l
              rw [hb]
              exact hl
          · rw [closed_ems_forming]
            simp
        · have hgt : cur < bar_dt := by omega
          cases hcp : bs.current_payload with
          | none =>
            simp only [handle_bar_update, hlk, hcd, if_neg hlt, if_neg heq,
              hcp, List.nil_append]
            refine ⟨?_, ?_, ?_, ?_⟩
            · intro bs2 hbs2 l hl
              rw [publish_fold_bar_states] at hbs2
              rcases alookup_aset_cases _ _ _ _ _ hbs2 with ⟨_, hbs'⟩ | hbs'
              · rw [hbs'] at hl ⊢
                have hl2 : bs.last_published_dt = Option.some l := hl
                obtain ⟨d, hd, hld⟩ := hinv bs hlk l hl2
                rw [hcd] at hd
                injection hd with hd2
                exact ⟨bar_dt, rfl, by omega⟩
              · exact hinv bs2 hbs' l hl
            · intro ep hep hcl
              split at hep
              · simp only [List.mem_singleton] at hep
                rw [hep] at hcl
                simp only [pyget_dset_self] at hcl
                exact absurd hcl (by simp)
              · exact absurd hep (by simp)
            · intro bs2 l hbs2 hl
              injection hbs2 with hb
              refine ⟨⟨Option.some (dset (dset (dset payload "code"
                    (PyVal.str code)) "period" (PyVal.str period))
                    "is_closed" (PyVal.bool false)),
                  Option.some bar_dt, bs.last_published_dt⟩, l, ?_, ?_,
                  le_refl l⟩
              · rw [publish_fold_bar_states]
                exact alookup_aset_self _ _ _
              · show bs.last_published_dt = Option.some l
                rw [hb]
                exact hl
            · rw [closed_ems_forming]
              simp
          | some p0 =>
            by_cases hpe : p0 = []
            · simp only [handle_bar_update, hlk, hcd, if_neg hlt, if_neg heq,
                hcp, if_pos hpe, List.nil_append]
              refine ⟨?_, ?_, ?_, ?_⟩
              · intro bs2 hbs2 l hl
                rw [publish_fold_bar_states] at hbs2
                rcases alookup_aset_cases _ _ _ _ _ hbs2 with ⟨_, hbs'⟩ | hbs'
                · rw [hbs'] at hl ⊢
                  have hl2 : bs.last_published_dt = Option.some l := hl
                  obtain ⟨d, hd, hld⟩ := hinv bs hlk l hl2
                  rw [hcd] at hd
                  injection hd with hd2
                  exact ⟨bar_dt, rfl, by omega⟩
                · exact hinv bs2 hbs' l hl
              · intro ep hep hcl
                split at hep
                · simp only [List.mem_singleton] at hep
                  rw [hep] at hcl
                  simp only [pyget_dset_self] at hcl
                  exact absurd hcl (by simp)
                · exact absurd hep (by simp)
              · intro bs2 l hbs2 hl
                injection hbs2 with hb
                refine ⟨⟨Option.some (dset (dset (dset payload "code"
                      (PyVal.str code)) "period" (PyVal.str period))
                      "is_closed" (PyVal.bool false)),
                    Option.some bar_dt, bs.last_published_dt⟩, l, ?_, ?_,
                    le_refl l⟩
                · rw [publish_fold_bar_states]
                  exact alookup_aset_self _ _ _
                · show bs.last_published_dt = Option.some l
                  rw [hb]
                  exact hl
              · rw [closed_ems_forming]
                simp
            · simp only [handle_bar_update, hlk, hcd, if_neg hlt, if_neg heq,
                hcp, if_neg hpe, List.cons_append, List.nil_append]
              refine ⟨?_, ?_, ?_, ?_⟩
              · intro bs2 hbs2 l hl
                rw [publish_fold_bar_states] at hbs2
                rcases alookup_aset_cases _ _ _ _ _ hbs2 with ⟨_, hbs'⟩ | hbs'
                · rw [hbs'] at hl ⊢
                  have hl2 : Option.some cur = Option.some l := hl
                  injection hl2 with hl3
                  exact ⟨bar_dt, rfl, by omega⟩
                · exact hinv bs2 hbs' l hl
              · intro ep hep hcl
                rcases List.mem_cons.mp hep with h1 | h1
                · constructor
                  · intro bs2 l hbs2 hl
                    injection hbs2 with hb
                    rw [hb] at hlk
                    obtain ⟨d, hd, hld⟩ := hinv bs2 hlk l hl
                    rw [← hb, hcd] at hd
                    injection hd with hd2
                    rw [h1]
                    show l < cur
                    omega
                  · refine ⟨⟨Option.some (dset (dset (dset payload "code"
                        (PyVal.str code)) "period" (PyVal.str period))
                        "is_closed" (PyVal.bool false)),
                      Option.some bar_dt, Option.some cur⟩, ?_, ?_⟩
                    · rw [publish_fold_bar_states]
                      exact alookup_aset_self _ _ _
                    · show Option.some cur = Option.some ep.1
                      rw [h1]
                · split at h1
                  · simp only [List.mem_singleton] at h1
                    rw [h1] at hcl
                    simp only [pyget_dset_self] at hcl
                    exact absurd hcl (by simp)
                  · exact absurd h1 (by simp)
              · intro bs2 l hbs2 hl
                injection hbs2 with hb
                rw [hb] at hlk
                obtain ⟨d, hd, hld⟩ := hinv bs2 hlk l hl
                rw [← hb, hcd] at hd
                injection hd with hd2
                refine ⟨⟨Option.some (dset (dset (dset payload "code"
                      (PyVal.str code)) "period" (PyVal.str period))
                      "is_closed" (PyVal.bool false)),
                    Option.some bar_dt, Option.some cur⟩, cur, ?_, rfl,
                    by omega⟩
                rw [publish_fold_bar_states]
                exact alookup_aset_self _ _ _
              · simp only [closed_ems, List.filter_cons]
                rw [show (decide (pyget (dset p0 "is_closed" (PyVal.bool true))
                    "is_closed" = PyVal.bool true)) = true by
                  simp [pyget_dset_self]]
                have hcf := closed_ems_forming cfg bar_dt
                  (dset (dset (dset payload "code" (PyVal.str code))
                    "period" (PyVal.str period)) "is_closed" (PyVal.bool false))
                simp only [closed_ems] at hcf
                rw [hcf]
                simp

/-- A list of at most one element is vacuously pairwise. -/
theorem pairwise_of_length_le_one {α : Type} {R : α → α → Prop}
    (l : List α) (h : l.length ≤ 1) : List.Pairwise R l := by
  cases l with
  | nil => constructor
  | cons x xs =>
    cases xs with
    | nil => simp
    | cons y ys => simp at h

/-- Membership in the closed filter. -/
theorem mem_closed_ems (l : List (Int × PyDict)) (ep : Int × PyDict)
    (h : ep ∈ closed_ems l) :
    ep ∈ l ∧ pyget ep.2 "is_closed" = PyVal.bool true := by
  unfold closed_ems at h
  have h2 := List.mem_filter.mp h
  exact ⟨h2.1, of_decide_eq_true h2.2⟩

/-- closed_ems distributes over append. -/
theorem closed_ems_append (a b : List (Int × PyDict)) :
    closed_ems (a ++ b) = closed_ems a ++ closed_ems b := by
  unfold closed_ems
  rw [List.filter_append]

/-- Run-level induction: across a full fold over events, the reachable-state
invariant holds, the closed emissions are strictly increasing, and every
closed emission is bounded by the final watermark. -/
theorem run_fold_mono (cfg : RtCfg) (code period : String) :
    ∀ (events : List (Int × PyDict)) (st : SvcState)
      (acc : List (Int × PyDict)),
      key_inv st (code, period) →
      List.Pairwise (fun a b : Int × PyDict => a.1 < b.1) (closed_ems acc) →
      (∀ ep ∈ closed_ems acc, ∃ bs l,
          alookup st.bar_states (code, period) = Option.some bs
          ∧ bs.last_published_dt = Option.some l ∧ ep.1 ≤ l) →
      key_inv (events.foldl (fun a dp =>
          ((handle_bar_update cfg a.1 code period dp.1 dp.2).1,
           a.2 ++ (handle_bar_update cfg a.1 code period dp.1 dp.2).2))
          (st, acc)).1 (code, period)
      ∧ List.Pairwise (fun a b : Int × PyDict => a.1 < b.1)
          (closed_ems (events.foldl (fun a dp =>
            ((handle_bar_update cfg a.1 code period dp.1 dp.2).1,
             a.2 ++ (handle_bar_update cfg a.1 code period dp.1 dp.2).2))
            (st, acc)).2)
      ∧ (∀ ep ∈ closed_ems (events.foldl (fun a dp =>
            ((handle_bar_update cfg a.1 code period dp.1 dp.2).1,
             a.2 ++ (handle_bar_update cfg a.1 code period dp.1 dp.2).2))
            (st, acc)).2, ∃ bs l,
          alookup (events.foldl (fun a dp =>
            ((handle_bar_update cfg a.1 code period dp.1 dp.2).1,
             a.2 ++ (handle_bar_update cfg a.1 code period dp.1 dp.2).2))
            (st, acc)).1.bar_states (code, period) = Option.some bs
          ∧ bs.last_published_dt = Option.some l ∧ ep.1 ≤ l) := by
  intro events
  induction events with
  | nil =>
    intro st acc hinv hpw hbd
    exact ⟨hinv, hpw, hbd⟩
  | cons e es ih =>
    intro st acc hinv hpw hbd
    simp only [List.foldl_cons]
    have hstep := handle_step_mono cfg st code period e.1 e.2 hinv
    refine ih _ _ hstep.1 ?_ ?_
    · rw [closed_ems_append]
      rw [List.pairwise_append]
      refine ⟨hpw, pairwise_of_length_le_one _ hstep.2.2.2, ?_⟩
      intro a ha b hb
      obtain ⟨bs, l, hlk, hL, hle⟩ := hbd a ha
      obtain ⟨hbmem, hbcl⟩ := mem_closed_ems _ _ hb
      have hlt := (hstep.2.1 b hbmem hbcl).1 bs l hlk hL
      omega
    · intro ep hep
      rw [closed_ems_append] at hep
      rcases List.mem_append.mp hep with h | h
      · obtain ⟨bs, l, hlk, hL, hle⟩ := hbd ep h
        obtain ⟨bs', l', hlk', hL', hll⟩ := hstep.2.2.1 bs l hlk hL
        exact ⟨bs', l', hlk', hL', by omega⟩
      · obtain ⟨hmem, hcl⟩ := mem_closed_ems _ _ h
        obtain ⟨bs', hlk', hL'⟩ := (hstep.2.1 ep hmem hcl).2
        exact ⟨bs', ep.1, hlk', hL', le_refl _⟩

/-- C3: from a fresh service, for any event sequence fed to one key, the
closed-bar emissions are strictly increasing in their bar instant (the
parsed bar_end_ts), and no closed bar at or before the published watermark
is ever emitted: at every step, every closed emission is strictly later
than the last_published_dt held before that step. -/
theorem C3_closed_monotone (cfg : RtCfg) (code period : String)
    (events : List (Int × PyDict)) :
    List.Pairwise (fun a b : Int × PyDict => a.1 < b.1)
      (closed_ems (run_events cfg code period init_svc events).2)
    ∧ (∀ pre e post, events = pre ++ e :: post →
        ∀ bs l,
          alookup (run_events cfg code period init_svc pre).1.bar_states
            (code, period) = Option.some bs →
          bs.last_published_dt = Option.some l →
          ∀ ep ∈ (handle_bar_update cfg
              (run_events cfg code period init_svc pre).1 code period
              e.1 e.2).2,
            pyget ep.2 "is_closed" = PyVal.bool true → l < ep.1) := by
  have hinit : key_inv init_svc (code, period) := by
    intro bs hbs
    exact absurd hbs (by simp [init_svc, alookup])
  constructor
  · exact (run_fold_mono cfg code period events init_svc []
      hinit (by constructor) (by intro ep hep; exact absurd hep (by simp [closed_ems]))).2.1
  · intro pre e post _ bs l hlk hL ep hep hcl
    have hpre := run_fold_mono cfg code period pre init_svc []
      hinit (by constructor)
      (by intro ep2 hep2; exact absurd hep2 (by simp [closed_ems]))
    have hstep := handle_step_mono cfg
      (run_events cfg code period init_svc pre).1 code period e.1 e.2 hpre.1
    exact (hstep.2.1 ep hep hcl).1 bs l hlk hL

/-- Witness event payload for C3. -/
def c3_p (cl : Int) : PyDict :=
  [("bar_end_ts", PyVal.str "t"), ("close", PyVal.num cl)]

/-- Witness events for C3: two bars then a third that closes the second. -/
def c3_events : List (Int × PyDict) :=
  [(100, c3_p 1), (160, c3_p 2), (200, c3_p 3)]

/-- Witness for C3 at a concrete run: the closed emissions of the three-event
feed are strictly increasing, and the closed bar emitted by the third event
(instant 160) is strictly later than the watermark 100 held before it. -/
theorem C3_witness :
    List.Pairwise (fun a b : Int × PyDict => a.1 < b.1)
      (closed_ems (run_events { mode := "close_only" } "510050.SH" "1m"
        init_svc c3_events).2)
    ∧ (100 : Int) < 160 := by
  have h := C3_closed_monotone { mode := "close_only" } "510050.SH" "1m"
    c3_events
  refine ⟨h.1, ?_⟩
  have h2 := h.2 [(100, c3_p 1), (160, c3_p 2)] (200, c3_p 3) [] rfl
    ⟨Option.some [("bar_end_ts", PyVal.str "t"), ("close", PyVal.num 2),
       ("code", PyVal.str "510050.SH"), ("period", PyVal.str "1m"),
       ("is_closed", PyVal.bool false)],
     Option.some 160, Option.some 100⟩ 100 (by decide) rfl
    (160, [("bar_end_ts", PyVal.str "t"), ("close", PyVal.num 2),
       ("code", PyVal.str "510050.SH"), ("period", PyVal.str "1m"),
       ("is_closed", PyVal.bool true)]) (by decide) (by decide)
  exact h2
